import Mathlib

/-!
Verification of the gemspec event-stream decoder (gemspec-rs).

The definitions below are a shallow embedding of:
  - src/2025/03/gemspec-rs/src/lib.rs           (Version, Requirement, Dependency,
                                                 Specification data model, Version::from_str)
  - src/2025/03/gemspec-rs/examples/new_spec.rs (parse_str, parse_integer, parse_null,
                                                 ruby_object_tag, parse_gem_version,
                                                 parse_gem_requirement, parse_dependency,
                                                 parse_gem_specification)

Rust strings are Lean `String` (or `List Char` where character-level
reasoning is needed; `'.'` is ASCII so `char`-level splitting agrees with
Rust's `str::split('.')`).  Machine integers are `Nat`/`Int` with explicit
bounds (`u64` values are `Nat` with a `< 2^64` check; the YAML scalar
integer is `Int` with `i64` bounds).  Fallible Rust code returning
`anyhow::Result` is embedded with an explicit error enumeration mirroring
each `bail!` site; Rust panics (`unwrap`, `expect`, `assert_matches!`,
`unimplemented!`) are a separate `panicked` outcome, distinct from typed
errors.  The pull-based event loops are embedded as fuel-indexed recursive
functions over the remaining event list; every wrapper supplies
`events.length + 1` fuel and we prove below that this fuel is never
exhausted, so the fuel is a definitional device only.
-/

/-- YAML scalar styles as in saphyr's `ScalarStyle` (only the style/plain
distinction is semantically relevant to the decoder). -/
inductive ScalarStyle where
  | plain
  | singleQuoted
  | doubleQuoted
  | literal
  | folded
deriving DecidableEq, Repr

/-- A YAML tag as in saphyr's `Tag`: a handle plus a suffix. -/
structure YTag where
  handle : String
  suffix : String
deriving DecidableEq, Repr

/-- The saphyr parser events consumed by the decoder (`saphyr_parser::Event`).
`scalar` carries the raw text, the style, the anchor id and the optional tag,
exactly the four components matched by the Rust code.  (The `Alias` event of
the library is never produced for the documents in scope and never matched by
the decoder's patterns except through catch-alls; it is omitted.) -/
inductive YEvent where
  | streamStart
  | documentStart
  | documentEnd
  | streamEnd
  | scalar (value : String) (style : ScalarStyle) (aid : Nat) (tag : Option YTag)
  | mappingStart (aid : Nat) (tag : Option YTag)
  | mappingEnd
  | sequenceStart (aid : Nat) (tag : Option YTag)
  | sequenceEnd
deriving DecidableEq, Repr

/-- Result of resolving a raw scalar, as in saphyr's `Scalar` variants the
decoder inspects (Null / Boolean / Integer / String).  Spec §4.2 documents the
resolution outcome set as {string, integer, boolean, null}. -/
inductive CScalar where
  | null
  | boolean (b : Bool)
  | int (n : Int)
  | str (s : String)
deriving DecidableEq, Repr

/-- Accumulate the numeric value of a list of decimal digits. -/
def digitsVal (l : List Char) : Nat :=
  l.foldl (fun a c => a * 10 + (c.toNat - 48)) 0

/-- Modelled from the spec: the integer grammar of the scalar resolver of the
external YAML library (saphyr), which is not part of this repository.
Spec §4.2: "plain scalar matching an integer grammar (optional sign, digits,
no disallowed leading zero) ⇒ Int"; the library produces an `i64`, so the
value is bounded accordingly. -/
def parseIntScalar (s : String) : Option Int :=
  let (neg, ds) :=
    match s.data with
    | '+' :: r => (false, r)
    | '-' :: r => (true, r)
    | r => (false, r)
  if ds.isEmpty then none
  else if !ds.all Char.isDigit then none
  else if ds.length > 1 && ds.headD ' ' == '0' then none
  else
    let v : Int := if neg then -(digitsVal ds : Int) else (digitsVal ds : Int)
    if v < -(2 ^ 63) ∨ (2 ^ 63 : Int) ≤ v then none else some v

/-- ASCII lower-casing of one character. -/
def charLower (c : Char) : Char :=
  if 'A' ≤ c ∧ c ≤ 'Z' then Char.ofNat (c.toNat + 32) else c

/-- Case-insensitive (ASCII) comparison of `s` against a lowercase word. -/
def lowerIs (s : String) (t : String) : Bool :=
  s.data.map charLower == t.data

/-- Modelled from the spec: scalar resolution performed by the external YAML
library (saphyr's `Scalar::parse_from_cow_and_metadata` with no tag), which is
not part of this repository.  Spec §4.2: "bare/empty plain scalar ⇒ Null;
case-insensitive `true`/`false` in plain style ⇒ Bool; plain scalar matching an
integer grammar ⇒ Int; otherwise ⇒ Str (preserving literal text verbatim,
including quoted/block content)".  Non-plain styles therefore always resolve
to a string.  (Floating-point resolution is outside the outcome set the spec
documents and is irrelevant to every claim, all of which use quoted scalars or
non-float plain text.) -/
def coerceScalar (value : String) (style : ScalarStyle) : CScalar :=
  match style with
  | .plain =>
    if value = "" ∨ value = "~" ∨ lowerIs value "null" then .null
    else if lowerIs value "true" then .boolean true
    else if lowerIs value "false" then .boolean false
    else
      match parseIntScalar value with
      | some n => .int n
      | none => .str value
  | _ => .str value

/-- The decode error outcomes, one constructor per `bail!`/`anyhow!` site of
the decoder (anyhow errors are messages; each constructor carries exactly the
data interpolated into the corresponding message). -/
inductive DecodeErr where
  /-- parse_str / parse_integer: "Expected a string, got {:?}" (the
  parse_integer message reuses the same wording in the source). -/
  | expectedString (got : CScalar)
  /-- parse_str / parse_integer / parse_null on a non-scalar event (or a
  scalar carrying an anchor or tag): "Expected a scalar". -/
  | expectedScalar
  /-- parse_null: "Expected null, got {:?}". -/
  | expectedNull (got : CScalar)
  /-- the loops' "Expected more events" on iterator exhaustion. -/
  | expectedMoreEvents
  /-- parse_gem_version MappingEnd with no version seen: "Expected version". -/
  | expectedVersion
  /-- parse_gem_version on a key other than "version": "Expected version, got {:?}". -/
  | expectedVersionKey (k : String)
  /-- Version::from_str: "Empty segment in version string {:?}". -/
  | malformedVersion (s : String)
  /-- parse_gem_requirement: "unknown Gem::Requirement ivar {:?}". -/
  | unknownRequirementKey (k : String)
  /-- parse_dependency: "unknown Gem::Dependency ivar {:?}". -/
  | unknownDependencyKey (k : String)
  /-- parse_dependency: "Unknown dependency type {}". -/
  | unknownDependencyType (v : String)
  /-- parse_gem_specification: "unknown Gem::Specification ivar {:?}". -/
  | unknownSpecField (k : String)
  /-- parse_gem_specification dependencies loop: "Expected a dependency, got {:?}". -/
  | expectedDependency
deriving DecidableEq, Repr

/-- Outcome of one decoder invocation.  `ok` carries the decoded value and the
events remaining in the stream (the Rust functions share one iterator, so the
suffix is returned explicitly).  `panicked` is a Rust panic
(`unwrap`/`expect`/`assert_matches!`/`unimplemented!`), distinct from the typed
`err` channel.  `fuelOut` is an artefact of the fuel-indexed embedding and is
proved unreachable for the fuel supplied by the wrappers. -/
inductive DResult (α : Type) where
  | ok (a : α) (rest : List YEvent)
  | err (e : DecodeErr)
  | panicked (msg : String)
  | fuelOut
deriving DecidableEq, Repr

/-- Sequence a decode result with a continuation, propagating errors, panics
and fuel exhaustion — the embedding of Rust's `?` on a sub-decoder call
followed by the rest of the loop body. -/
def andThen {α β : Type} (r : DResult α) (k : α → List YEvent → DResult β) : DResult β :=
  match r with
  | .ok a rest => k a rest
  | .err e => .err e
  | .panicked m => .panicked m
  | .fuelOut => .fuelOut

/-- From new_spec.rs `ruby_object_tag`: the tag's handle is "!" and its suffix
is "ruby/object:" followed by exactly `name` (the source phrases this via
strip, which holds precisely of `"ruby/object:" ++ name`). -/
def rubyObjectTag (t : YTag) (name : String) : Bool :=
  t.handle = "!" && t.suffix = "ruby/object:" ++ name

/-- From new_spec.rs `parse_str`: demand a scalar event with anchor id 0 and
no tag whose resolution is a string; any other event (including tagged or
anchored scalars) is "Expected a scalar". -/
def parseStr (e : YEvent) : Except DecodeErr String :=
  match e with
  | .scalar v style 0 none =>
    match coerceScalar v style with
    | .str s => .ok s
    | sc => .error (.expectedString sc)
  | _ => .error .expectedScalar

/-- From new_spec.rs `parse_integer` (note the source's error message for a
non-integer resolution reuses the "Expected a string" wording). -/
def parseInteger (e : YEvent) : Except DecodeErr Int :=
  match e with
  | .scalar v style 0 none =>
    match coerceScalar v style with
    | .int n => .ok n
    | sc => .error (.expectedString sc)
  | _ => .error .expectedScalar

/-- From new_spec.rs `parse_null`: the source resolves via
`Scalar::parse_from_cow`, which ignores the event's style (the style is
wildcarded in the pattern), i.e. resolves as a plain scalar. -/
def parseNull (e : YEvent) : Except DecodeErr Unit :=
  match e with
  | .scalar v _ 0 none =>
    match coerceScalar v .plain with
    | .null => .ok ()
    | sc => .error (.expectedNull sc)
  | _ => .error .expectedScalar

/-- From lib.rs `enum VersionSegment`: a dot-separated version piece, numeric
(`u64`) or textual. -/
inductive VersionSegment where
  | Number (n : Nat)
  | String (s : String)
deriving DecidableEq, Repr

/-- From lib.rs `struct Version`: the original dotted string plus the
decomposed segments. -/
structure Version where
  version : String
  segments : List VersionSegment
deriving DecidableEq, Repr

/-- Split a character list on '.', one piece per dot-separated run, exactly as
Rust's `str::split('.')` (an empty input gives one empty piece; leading,
trailing and consecutive dots give empty pieces). -/
def splitDot : List Char → List (List Char)
  | [] => [[]]
  | c :: rest =>
    if c = '.' then [] :: splitDot rest
    else
      match splitDot rest with
      | p :: ps => (c :: p) :: ps
      | [] => [[c]]

/-- Join character-list pieces with '.', the inverse of `splitDot`. -/
def joinDot : List (List Char) → List Char
  | [] => []
  | [p] => p
  | p :: ps => p ++ '.' :: joinDot ps

/-- Rust's `u64::from_str` as used by `Version::from_str` on one piece: an
optional leading '+', then one or more ASCII digits, value below `2^64`
(Rust's u64 parsing accepts leading zeroes and a leading '+'). -/
def parseU64 (l : List Char) : Option Nat :=
  let ds := match l with
    | '+' :: r => r
    | r => r
  if ds.isEmpty then none
  else if ds.all Char.isDigit then
    let v := digitsVal ds
    if v < 2 ^ 64 then some v else none
  else none

/-- Classify one dot-separated piece as in `Version::from_str`: numeric when
it parses as a `u64`, textual otherwise. -/
def pieceToSegment (p : List Char) : VersionSegment :=
  match parseU64 p with
  | some n => .Number n
  | none => .String ⟨p⟩

/-- From lib.rs `impl FromStr for Version`: split on '.', fail on any empty
piece ("Empty segment in version string"), classify each piece, keep the
original string. -/
def Version.fromStr (s : String) : Except DecodeErr Version :=
  let pieces := splitDot s.data
  if pieces.any (fun p => p.isEmpty) then .error (.malformedVersion s)
  else .ok ⟨s, pieces.map pieceToSegment⟩

/-- From lib.rs `enum RequirementOperator` (the `Unknown` variant exists in
the data model; note its string form is commented out in the source). -/
inductive RequirementOperator where
  | Equal
  | GreaterThan
  | GreaterThanOrEqual
  | LessThan
  | LessThanOrEqual
  | NotEqual
  | Tilde
  | Unknown
deriving DecidableEq, Repr

/-- From lib.rs `struct Requirement`: an ordered list of operator/version
pairs. -/
structure Requirement where
  requirements : List (RequirementOperator × Version)
deriving DecidableEq, Repr

/-- From lib.rs `enum DependencyType`. -/
inductive DependencyType where
  | Runtime
  | Development
deriving DecidableEq, Repr

/-- From lib.rs `struct Dependency`. -/
structure Dependency where
  name : String
  requirement : Requirement
  kind : DependencyType
deriving DecidableEq, Repr

/-- From lib.rs `struct Platform` (a newtype over the platform string;
`Default` is "ruby"). -/
structure Platform where
  val : String
deriving DecidableEq, Repr

/-- From lib.rs `struct Specification` with the `Default` values used by
new_spec.rs's `..Default::default()` (empty strings/lists, `None` options,
platform "ruby", specification_version 0).  The chrono date is modelled as a
string since the decoder never constructs it. -/
structure Specification where
  name : String := ""
  version : Version := ⟨"", []⟩
  dependencies : List Dependency := []
  required_ruby_version : Option Requirement := none
  required_rubygems_version : Option Requirement := none
  rubygems_version : String := ""
  test_files : List String := []
  specification_version : Nat := 0
  summary : String := ""
  require_paths : List String := []
  homepage : String := ""
  licenses : List String := []
  metadata : List (String × String) := []
  files : List String := []
  platform : Platform := ⟨"ruby"⟩
  authors : List String := []
  autorequire : Option String := none
  description : Option String := none
  bindir : Option String := none
  executables : List String := []
  email : List String := []
  cert_chain : Option (List String) := none
  date : String := ""
  extensions : List String := []
  extra_rdoc_files : List String := []
  post_install_message : Option String := none
  rdoc_options : List String := []
  requirements : List String := []
  signing_key : Option String := none
  rubyforge_project : Option String := none
  default_executable : Option String := none
  has_rdoc : Option Bool := none
  original_platform : Option String := none
deriving DecidableEq, Repr

instance {ε α : Type} [DecidableEq ε] [DecidableEq α] :
    DecidableEq (Except ε α) := fun a b =>
  match a, b with
  | .ok x, .ok y =>
    if h : x = y then .isTrue (by rw [h]) else .isFalse (by simp [h])
  | .error x, .error y =>
    if h : x = y then .isTrue (by rw [h]) else .isFalse (by simp [h])
  | .ok _, .error _ => .isFalse (by simp)
  | .error _, .ok _ => .isFalse (by simp)

/-- The internal `State` of new_spec.rs `parse_gem_version`
(`Key` / `Version`). -/
inductive VerState where
  | key
  | value
deriving DecidableEq, Repr

/-- The loop of new_spec.rs `parse_gem_version`: a mapping whose only
recognized key is "version"; at `MappingEnd` the recorded string is parsed via
`Version::from_str` ("Expected version" if the key was never seen). -/
def verGo : Nat → VerState → Option String → List YEvent → DResult Version
  | 0, _, _, _ => .fuelOut
  | _ + 1, _, _, [] => .err .expectedMoreEvents
  | _ + 1, .key, ver?, .mappingEnd :: rest =>
    (match ver? with
    | none => .err .expectedVersion
    | some v =>
      match Version.fromStr v with
      | .ok ve => .ok ve rest
      | .error e => .err e)
  | n + 1, .key, ver?, e :: rest =>
    (match parseStr e with
    | .error er => .err er
    | .ok k =>
      if k = "version" then verGo n .value ver? rest
      else .err (.expectedVersionKey k))
  | n + 1, .value, _, e :: rest =>
    (match parseStr e with
    | .error er => .err er
    | .ok v => verGo n .key (some v) rest)

/-- The inner `requirements` sequence loop of new_spec.rs
`parse_gem_requirement` (lines 379-403).  Each 2-element inner sequence is
consumed: the operator text is parsed and BOUND BUT DROPPED, the tagged
version mapping is asserted (`assert_matches!`, a panic on mismatch) and
decoded, and the trailing `SequenceEnd` is asserted — the source never pushes
the parsed pair into the `requirements` vector.  Iterator exhaustion inside
`.expect(..)` calls panics; exhaustion at the loop head simply ends the
`while let` loop. -/
def reqPairsGo : Nat → List YEvent → DResult Unit
  | 0, _ => .fuelOut
  | _ + 1, [] => .ok () []
  | _ + 1, .sequenceEnd :: rest => .ok () rest
  | _ + 1, [.sequenceStart _ none] => .panicked "requirement op"
  | n + 1, .sequenceStart _ none :: opEv :: rest2 =>
    (match parseStr opEv with
    | .error er => .err er
    | .ok _op =>
      match rest2 with
      | [] => .panicked "requirement version"
      | .mappingStart _ (some tag) :: rest3 =>
        if rubyObjectTag tag "Gem::Version" then
          andThen (verGo n .key none rest3) (fun _ver rest4 =>
            match rest4 with
            | [] => .panicked "requirement seq end"
            | se :: rest5 =>
              if se = .sequenceEnd then reqPairsGo n rest5
              else .panicked "assertion failed: SequenceEnd")
        else .panicked "assertion failed: Gem::Version tag"
      | _ :: _ => .panicked "assertion failed: Gem::Version tag")
  | n + 1, e :: rest =>
    (match parseStr e with
    | .error er => .err er
    | .ok _ => reqPairsGo n rest)

/-- The internal `Key` enum of new_spec.rs `parse_gem_requirement` (only
`requirements`). -/
inductive ReqKey where
  | requirements
deriving DecidableEq, Repr

/-- The outer loop of new_spec.rs `parse_gem_requirement`: the
`requirements` vector is created empty and — because the inner loop drops
every parsed pair — is still empty at `MappingEnd`. -/
def reqGo : Nat → Option ReqKey → List (RequirementOperator × Version) →
    List YEvent → DResult Requirement
  | 0, _, _, _ => .fuelOut
  | _ + 1, _, _, [] => .err .expectedMoreEvents
  | _ + 1, none, reqs, .mappingEnd :: rest => .ok ⟨reqs⟩ rest
  | n + 1, none, reqs, e :: rest =>
    (match parseStr e with
    | .error er => .err er
    | .ok k =>
      if k = "requirements" then reqGo n (some .requirements) reqs rest
      else .err (.unknownRequirementKey k))
  | n + 1, some .requirements, reqs, .sequenceStart _ none :: rest =>
    andThen (reqPairsGo n rest) (fun _ rest2 => reqGo n none reqs rest2)
  | _ + 1, some .requirements, _, _ :: _ => .panicked "unimplemented"

/-- The internal `Key` enum of new_spec.rs `parse_dependency`. -/
inductive DepKey where
  | name
  | requirement
  | type
  | prerelease
  | versionRequirements
deriving DecidableEq, Repr

/-- The strum `EnumString` lookup for `parse_dependency`'s keys. -/
def depKeyOf (s : String) : Option DepKey :=
  if s = "name" then some .name
  else if s = "requirement" then some .requirement
  else if s = "type" then some .type
  else if s = "prerelease" then some .prerelease
  else if s = "version_requirements" then some .versionRequirements
  else none

/-- The loop of new_spec.rs `parse_dependency`.  At `MappingEnd` the three
mandatory values are taken with `Option::unwrap` — a PANIC when absent, not a
typed error.  The value for key "requirement" is decoded by
`parse_gem_requirement` after the triggering event is consumed and discarded.
"type" must be the literal ":runtime" or ":development"; anything else is the
typed error `unknownDependencyType`.  "prerelease" accepts a bare scalar and
discards it; "version_requirements" decodes a tagged Requirement mapping and
discards it. -/
def depGo : Nat → Option DepKey → Option String → Option Requirement →
    Option DependencyType → List YEvent → DResult Dependency
  | 0, _, _, _, _, _ => .fuelOut
  | _ + 1, _, _, _, _, [] => .err .expectedMoreEvents
  | _ + 1, none, name?, req?, ty?, .mappingEnd :: rest =>
    (match name?, req?, ty? with
    | some nm, some rq, some ty => .ok ⟨nm, rq, ty⟩ rest
    | _, _, _ => .panicked "Option::unwrap on None")
  | n + 1, none, name?, req?, ty?, e :: rest =>
    (match parseStr e with
    | .error er => .err er
    | .ok k =>
      match depKeyOf k with
      | some dk => depGo n (some dk) name? req? ty? rest
      | none => .err (.unknownDependencyKey k))
  | n + 1, some .name, _, req?, ty?, e :: rest =>
    (match parseStr e with
    | .error er => .err er
    | .ok nm => depGo n none (some nm) req? ty? rest)
  | n + 1, some .requirement, name?, _, ty?, _e :: rest =>
    andThen (reqGo n none [] rest) (fun rq rest2 =>
      depGo n none name? (some rq) ty? rest2)
  | n + 1, some .type, name?, req?, _, e :: rest =>
    (match parseStr e with
    | .error er => .err er
    | .ok ts =>
      if ts = ":runtime" then depGo n none name? req? (some .Runtime) rest
      else if ts = ":development" then
        depGo n none name? req? (some .Development) rest
      else .err (.unknownDependencyType ts))
  | n + 1, some .prerelease, name?, req?, ty?, .scalar _ _ 0 none :: rest =>
    depGo n none name? req? ty? rest
  | n + 1, some .versionRequirements, name?, req?, ty?,
      .mappingStart 0 (some tag) :: rest =>
    if rubyObjectTag tag "Gem::Requirement" then
      andThen (reqGo n none [] rest) (fun _rq rest2 =>
        depGo n none name? req? ty? rest2)
    else .panicked "unimplemented"
  | _ + 1, some .prerelease, _, _, _, _ :: _ => .panicked "unimplemented"
  | _ + 1, some .versionRequirements, _, _, _, _ :: _ => .panicked "unimplemented"

/-- The internal `State` enum of new_spec.rs `parse_gem_specification`
(one variant per recognized root key, strum snake_case). -/
inductive SpecField where
  | name
  | version
  | platform
  | authors
  | autorequire
  | bindir
  | certChain
  | date
  | dependencies
  | description
  | email
  | executables
  | extensions
  | extraRdocFiles
  | files
  | homepage
  | licenses
  | metadata
  | postInstallMessage
  | rdocOptions
  | requirePaths
  | requiredRubyVersion
  | requiredRubygemsVersion
  | requirements
  | rubygemsVersion
  | signingKey
  | specificationVersion
  | summary
  | testFiles
deriving DecidableEq, Repr

/-- The strum `EnumString` (snake_case) lookup for the root keys of
`parse_gem_specification`; `none` is the "unknown Gem::Specification ivar"
outcome. -/
def specKeyOf (s : String) : Option SpecField :=
  if s = "name" then some .name
  else if s = "version" then some .version
  else if s = "platform" then some .platform
  else if s = "authors" then some .authors
  else if s = "autorequire" then some .autorequire
  else if s = "bindir" then some .bindir
  else if s = "cert_chain" then some .certChain
  else if s = "date" then some .date
  else if s = "dependencies" then some .dependencies
  else if s = "description" then some .description
  else if s = "email" then some .email
  else if s = "executables" then some .executables
  else if s = "extensions" then some .extensions
  else if s = "extra_rdoc_files" then some .extraRdocFiles
  else if s = "files" then some .files
  else if s = "homepage" then some .homepage
  else if s = "licenses" then some .licenses
  else if s = "metadata" then some .metadata
  else if s = "post_install_message" then some .postInstallMessage
  else if s = "rdoc_options" then some .rdocOptions
  else if s = "require_paths" then some .requirePaths
  else if s = "required_ruby_version" then some .requiredRubyVersion
  else if s = "required_rubygems_version" then some .requiredRubygemsVersion
  else if s = "requirements" then some .requirements
  else if s = "rubygems_version" then some .rubygemsVersion
  else if s = "signing_key" then some .signingKey
  else if s = "specification_version" then some .specificationVersion
  else if s = "summary" then some .summary
  else if s = "test_files" then some .testFiles
  else none

/-- The local accumulators of `parse_gem_specification` — the ONLY values the
source keeps; everything else it parses is dropped. -/
structure SpecAcc where
  name : Option String := none
  version : Option Version := none
  platform : Option Platform := none
  authors : List String := []
  bindir : Option String := none
  cert_chain : Option (List String) := none
  description : Option String := none
deriving DecidableEq, Repr

/-- The repeated "collect string scalars until `SequenceEnd`" loop of
`parse_gem_specification` (authors, cert_chain, executables, extensions,
extra_rdoc_files, files, licenses, rdoc_options, require_paths, test_files all
use this identical inline loop; arms that drop the collected values ignore the
returned list).  Iterator exhaustion ends the `while let` loop normally. -/
def strListGo : Nat → List YEvent → DResult (List String)
  | 0, _ => .fuelOut
  | _ + 1, [] => .ok [] []
  | _ + 1, .sequenceEnd :: rest => .ok [] rest
  | n + 1, e :: rest =>
    (match parseStr e with
    | .error er => .err er
    | .ok s => andThen (strListGo n rest) (fun l r2 => .ok (s :: l) r2))

/-- The `metadata` mapping loop of `parse_gem_specification`: every event
until `MappingEnd` (keys and values alike) goes through `parse_str` and is
dropped. -/
def mapStrGo : Nat → List YEvent → DResult Unit
  | 0, _ => .fuelOut
  | _ + 1, [] => .ok () []
  | _ + 1, .mappingEnd :: rest => .ok () rest
  | n + 1, e :: rest =>
    (match parseStr e with
    | .error er => .err er
    | .ok _ => mapStrGo n rest)

/-- The `dependencies` sequence loop of `parse_gem_specification`: each
element must be a mapping tagged `Gem::Dependency` (anything else is
"Expected a dependency"); the collected list is a LOCAL in the source and is
dropped after the loop. -/
def depsGo : Nat → List YEvent → DResult (List Dependency)
  | 0, _ => .fuelOut
  | _ + 1, [] => .ok [] []
  | _ + 1, .sequenceEnd :: rest => .ok [] rest
  | n + 1, .mappingStart _ (some tag) :: rest =>
    if rubyObjectTag tag "Gem::Dependency" then
      andThen (depGo n none none none none rest) (fun d r2 =>
        andThen (depsGo n r2) (fun ds r3 => .ok (d :: ds) r3))
    else .err .expectedDependency
  | _ + 1, _ :: _ => .err .expectedDependency

/-- The `requirements` (root field) sequence loop of
`parse_gem_specification`: each non-`SequenceEnd` event is consumed and
DISCARDED and `parse_gem_requirement` then reads the following events; each
parsed requirement is dropped. -/
def specReqsGo : Nat → List YEvent → DResult Unit
  | 0, _ => .fuelOut
  | _ + 1, [] => .ok () []
  | _ + 1, .sequenceEnd :: rest => .ok () rest
  | n + 1, _e :: rest =>
    andThen (reqGo n none [] rest) (fun _ r2 => specReqsGo n r2)

/-- The main loop of new_spec.rs `parse_gem_specification`.  At `MappingEnd`
the struct literal takes `name`/`version`/`platform` with `Option::unwrap`
(a PANIC when absent) and fills EVERY other field from
`..Default::default()`; only authors/bindir/cert_chain/description are
additionally carried over from the accumulators.  Unknown keys are the typed
"unknown Gem::Specification ivar" error.  All `unimplemented!` catch-alls of
the source are panics. -/
def specGo : Nat → Option SpecField → SpecAcc → List YEvent → DResult Specification
  | 0, _, _, _ => .fuelOut
  | _ + 1, _, _, [] => .err .expectedMoreEvents
  | _ + 1, none, acc, .mappingEnd :: rest =>
    (match acc.name, acc.version, acc.platform with
    | some nm, some v, some p =>
      .ok { name := nm, version := v, platform := p, authors := acc.authors,
            bindir := acc.bindir, cert_chain := acc.cert_chain,
            description := acc.description } rest
    | _, _, _ => .panicked "Option::unwrap on None")
  | n + 1, none, acc, e :: rest =>
    (match parseStr e with
    | .error er => .err er
    | .ok k =>
      match specKeyOf k with
      | some f => specGo n (some f) acc rest
      | none => .err (.unknownSpecField k))
  | n + 1, some .name, acc, e :: rest =>
    (match parseStr e with
    | .error er => .err er
    | .ok s => specGo n none { acc with name := some s } rest)
  | n + 1, some .version, acc, .mappingStart 0 (some tag) :: rest =>
    if rubyObjectTag tag "Gem::Version" then
      andThen (verGo n .key none rest) (fun v r2 =>
        specGo n none { acc with version := some v } r2)
    else .panicked "unimplemented"
  | n + 1, some .platform, acc, e :: rest =>
    (match parseStr e with
    | .error er => .err er
    | .ok s => specGo n none { acc with platform := some ⟨s⟩ } rest)
  | n + 1, some .authors, acc, .sequenceStart _ none :: rest =>
    andThen (strListGo n rest) (fun l r2 =>
      specGo n none { acc with authors := acc.authors ++ l } r2)
  | n + 1, some .autorequire, acc, e :: rest =>
    (match parseNull e with
    | .error er => .err er
    | .ok _ => specGo n none acc rest)
  | n + 1, some .bindir, acc, e :: rest =>
    (match parseStr e with
    | .error er => .err er
    | .ok s => specGo n none { acc with bindir := some s } rest)
  | n + 1, some .certChain, acc, .sequenceStart _ none :: rest =>
    andThen (strListGo n rest) (fun l r2 =>
      specGo n none { acc with cert_chain := some l } r2)
  | n + 1, some .date, acc, e :: rest =>
    (match parseStr e with
    | .error er => .err er
    | .ok _ => specGo n none acc rest)
  | n + 1, some .dependencies, acc, .sequenceStart _ none :: rest =>
    andThen (depsGo n rest) (fun _deps r2 => specGo n none acc r2)
  | n + 1, some .description, acc, e :: rest =>
    (match parseStr e with
    | .error er => .err er
    | .ok s => specGo n none { acc with description := some s } rest)
  | n + 1, some .email, acc, e :: rest =>
    (match parseStr e with
    | .error er => .err er
    | .ok _ => specGo n none acc rest)
  | n + 1, some .executables, acc, .sequenceStart _ none :: rest =>
    andThen (strListGo n rest) (fun _ r2 => specGo n none acc r2)
  | n + 1, some .extensions, acc, .sequenceStart _ none :: rest =>
    andThen (strListGo n rest) (fun _ r2 => specGo n none acc r2)
  | n + 1, some .extraRdocFiles, acc, .sequenceStart _ none :: rest =>
    andThen (strListGo n rest) (fun _ r2 => specGo n none acc r2)
  | n + 1, some .files, acc, .sequenceStart _ none :: rest =>
    andThen (strListGo n rest) (fun _ r2 => specGo n none acc r2)
  | n + 1, some .homepage, acc, e :: rest =>
    (match parseStr e with
    | .error er => .err er
    | .ok _ => specGo n none acc rest)
  | n + 1, some .licenses, acc, .sequenceStart _ none :: rest =>
    andThen (strListGo n rest) (fun _ r2 => specGo n none acc r2)
  | n + 1, some .metadata, acc, .mappingStart 0 none :: rest =>
    andThen (mapStrGo n rest) (fun _ r2 => specGo n none acc r2)
  | n + 1, some .postInstallMessage, acc, e :: rest =>
    (match parseNull e with
    | .error er => .err er
    | .ok _ => specGo n none acc rest)
  | n + 1, some .rdocOptions, acc, .sequenceStart _ none :: rest =>
    andThen (strListGo n rest) (fun _ r2 => specGo n none acc r2)
  | n + 1, some .requirePaths, acc, .sequenceStart _ none :: rest =>
    andThen (strListGo n rest) (fun _ r2 => specGo n none acc r2)
  | n + 1, some .requiredRubyVersion, acc, .mappingStart 0 (some tag) :: rest =>
    if rubyObjectTag tag "Gem::Requirement" then
      andThen (reqGo n none [] rest) (fun _ r2 => specGo n none acc r2)
    else .panicked "unimplemented"
  | n + 1, some .requiredRubygemsVersion, acc, .mappingStart 0 (some tag) :: rest =>
    if rubyObjectTag tag "Gem::Requirement" then
      andThen (reqGo n none [] rest) (fun _ r2 => specGo n none acc r2)
    else .panicked "unimplemented"
  | n + 1, some .requirements, acc, .sequenceStart 0 none :: rest =>
    andThen (specReqsGo n rest) (fun _ r2 => specGo n none acc r2)
  | n + 1, some .rubygemsVersion, acc, e :: rest =>
    (match parseStr e with
    | .error er => .err er
    | .ok _ => specGo n none acc rest)
  | n + 1, some .signingKey, acc, e :: rest =>
    (match parseNull e with
    | .error er => .err er
    | .ok _ => specGo n none acc rest)
  | n + 1, some .specificationVersion, acc, e :: rest =>
    (match parseInteger e with
    | .error er => .err er
    | .ok _ => specGo n none acc rest)
  | n + 1, some .summary, acc, e :: rest =>
    (match parseStr e with
    | .error er => .err er
    | .ok _ => specGo n none acc rest)
  | n + 1, some .testFiles, acc, .sequenceStart _ none :: rest =>
    andThen (strListGo n rest) (fun _ r2 => specGo n none acc r2)
  | _ + 1, some _, _, _ :: _ => .panicked "unimplemented"

/-- new_spec.rs `parse_gem_version` on an event sequence (positioned just
after the version object's `MappingStart`). -/
def parseGemVersion (events : List YEvent) : DResult Version :=
  verGo (events.length + 1) .key none events

/-- new_spec.rs `parse_gem_requirement` on an event sequence (positioned just
after the requirement object's `MappingStart`). -/
def parseGemRequirement (events : List YEvent) : DResult Requirement :=
  reqGo (events.length + 1) none [] events

/-- new_spec.rs `parse_dependency` on an event sequence (positioned just
after the dependency object's `MappingStart`). -/
def parseDependency (events : List YEvent) : DResult Dependency :=
  depGo (events.length + 1) none none none none events

/-- new_spec.rs `parse_gem_specification` on an event sequence (positioned
just after the root `MappingStart`). -/
def parseGemSpecification (events : List YEvent) : DResult Specification :=
  specGo (events.length + 1) none {} events

/-- A plain-style scalar event with no anchor and no tag (YAML keys, symbol
literals, integers). -/
def plainScalar (s : String) : YEvent := .scalar s .plain 0 none

/-- A double-quoted scalar event with no anchor and no tag (string values;
quoted style always resolves to a string). -/
def quotedScalar (s : String) : YEvent := .scalar s .doubleQuoted 0 none

/-- The custom tag `!ruby/object:Gem::Version`. -/
def verTag : YTag := ⟨"!", "ruby/object:Gem::Version"⟩

/-- The custom tag `!ruby/object:Gem::Requirement`. -/
def reqTag : YTag := ⟨"!", "ruby/object:Gem::Requirement"⟩

/-- The custom tag `!ruby/object:Gem::Dependency`. -/
def depTag : YTag := ⟨"!", "ruby/object:Gem::Dependency"⟩

/-- The spec's dependency-scenario requirement events:
`requirements: [["~>", {version:"2.6"}]]`, positioned after the requirement
object's MappingStart. -/
def tildeReqEvents : List YEvent :=
  [ plainScalar "requirements",
    .sequenceStart 0 none,
    .sequenceStart 0 none,
    quotedScalar "~>",
    .mappingStart 0 (some verTag),
    plainScalar "version",
    quotedScalar "2.6",
    .mappingEnd,
    .sequenceEnd,
    .sequenceEnd,
    .mappingEnd ]

/-- Root-mapping events of a minimal specification (mandatory fields only,
optional sequences empty, the scenario shape of spec §8), with the field
values as parameters; positioned after the root MappingStart. -/
def minimalSpecEvents (name vstr platform rubygems summary reqpath homepage
    license author : String) : List YEvent :=
  [ plainScalar "name", quotedScalar name,
    plainScalar "version", .mappingStart 0 (some verTag),
    plainScalar "version", quotedScalar vstr, .mappingEnd,
    plainScalar "platform", quotedScalar platform,
    plainScalar "dependencies", .sequenceStart 0 none, .sequenceEnd,
    plainScalar "rubygems_version", quotedScalar rubygems,
    plainScalar "specification_version", plainScalar "4",
    plainScalar "summary", quotedScalar summary,
    plainScalar "require_paths", .sequenceStart 0 none, quotedScalar reqpath,
    .sequenceEnd,
    plainScalar "homepage", quotedScalar homepage,
    plainScalar "licenses", .sequenceStart 0 none, quotedScalar license,
    .sequenceEnd,
    plainScalar "files", .sequenceStart 0 none, .sequenceEnd,
    plainScalar "authors", .sequenceStart 0 none, quotedScalar author,
    .sequenceEnd,
    .mappingEnd ]

/-- The concrete rake scenario of spec §8. -/
def rakeSpecEvents : List YEvent :=
  minimalSpecEvents "rake" "13.0.6" "ruby" "3.4.10" "x" "lib" "h" "MIT" "a"

/-- `splitDot` always yields at least one piece (as Rust's `split`). -/
theorem splitDot_ne_nil (l : List Char) : splitDot l ≠ [] := by
  cases l with
  | nil => simp [splitDot]
  | cons c rest =>
    simp only [splitDot]
    split
    · simp
    · split <;> simp

/-- Prepending a non-dot character to the first piece commutes with joining. -/
theorem joinDot_cons_head (c : Char) (p : List Char) (ps : List (List Char)) :
    joinDot ((c :: p) :: ps) = c :: joinDot (p :: ps) := by
  cases ps <;> simp [joinDot]

/-- Joining the pieces of `splitDot` with '.' reproduces the input. -/
theorem joinDot_splitDot (l : List Char) : joinDot (splitDot l) = l := by
  induction l with
  | nil => rfl
  | cons c rest ih =>
    by_cases h : c = '.'
    · subst h
      simp only [splitDot, if_pos rfl]
      cases hs : splitDot rest with
      | nil => exact absurd hs (splitDot_ne_nil rest)
      | cons q qs =>
        rw [hs] at ih
        simp [joinDot, ih]
    · simp only [splitDot, if_neg h]
      cases hs : splitDot rest with
      | nil => exact absurd hs (splitDot_ne_nil rest)
      | cons q qs =>
        rw [hs] at ih
        rw [joinDot_cons_head, ih]

/-- Decimal digit characters of a natural number, most significant first
(`fuel`-indexed core; `n + 1` fuel always suffices). -/
def natDecimalCore : Nat → Nat → List Char → List Char
  | 0, _, acc => acc
  | fuel + 1, n, acc =>
    let d := Char.ofNat (48 + n % 10)
    if n < 10 then d :: acc else natDecimalCore fuel (n / 10) (d :: acc)

/-- Canonical decimal rendering of a natural number as characters. -/
def natDecimal (n : Nat) : List Char := natDecimalCore (n + 1) n []

theorem natDecimalCore_length (fuel : Nat) :
    ∀ (n : Nat) (acc : List Char),
      acc.length ≤ (natDecimalCore fuel n acc).length := by
  induction fuel with
  | zero => intro n acc; simp [natDecimalCore]
  | succ f ih =>
    intro n acc
    simp only [natDecimalCore]
    split
    · simp
    · exact le_trans (by simp) (ih (n / 10) _)

theorem natDecimal_ne_nil (n : Nat) : natDecimal n ≠ [] := by
  have h : 1 ≤ (natDecimal n).length := by
    simp only [natDecimal, natDecimalCore]
    split
    · simp
    · exact le_trans (by simp)
        (natDecimalCore_length n (n / 10) [Char.ofNat (48 + n % 10)])
  intro h0
  rw [h0] at h
  simp at h

/-- The character rendering of one segment named by the spec's invariant:
numeric segments render in decimal, textual segments verbatim. -/
def segmentChars : VersionSegment → List Char
  | .Number n => natDecimal n
  | .String s => s.data

/-- Modelled from the spec: "joining segments with `.` reproduces the
original string" — the join of the segments' decimal/verbatim renderings. -/
def Version.rejoined (v : Version) : String :=
  ⟨joinDot (v.segments.map segmentChars)⟩

/-- A piece is canonical when, if it parses as a `u64`, it is exactly the
decimal rendering of its value (no leading zeroes, no '+'). -/
def canonicalPiece (p : List Char) : Bool :=
  match parseU64 p with
  | some k => p == natDecimal k
  | none => true

theorem segmentChars_pieceToSegment (p : List Char)
    (h : canonicalPiece p = true) : segmentChars (pieceToSegment p) = p := by
  unfold pieceToSegment
  unfold canonicalPiece at h
  cases hp : parseU64 p with
  | none => rfl
  | some k =>
    rw [hp] at h
    simp only [beq_iff_eq] at h
    simp [segmentChars, ← h]

/-- Claim C1: the decoder scenario for `requirements: [["~>", {version:"2.6"}]]`.
The source parses the operator text and the tagged version object of each
pair but never pushes the pair into its `requirements` vector, so the decoded
Requirement is empty — not `[(Tilde, Version("2.6"))]` as the claim states.
The first conjunct evaluates the embedded `parse_gem_requirement` at the
scenario input; the second records that the produced value differs from the
claimed one. -/
theorem c1_requirement_pairs_dropped :
    parseGemRequirement tildeReqEvents = .ok ⟨[]⟩ [] ∧
    Requirement.mk [] ≠
      Requirement.mk [(.Tilde, ⟨"2.6", [.Number 2, .Number 6]⟩)] :=
  ⟨by decide, by decide⟩

/-- Claim C3, counterexample: `"01"` is accepted by `Version::from_str`
(Rust's `u64` parser accepts leading zeroes), its single segment renders as
`"1"`, and joining therefore does not reproduce the original string. -/
theorem c3_counterexample :
    Version.fromStr "01" = .ok ⟨"01", [.Number 1]⟩ ∧
    Version.rejoined ⟨"01", [.Number 1]⟩ = "1" ∧
    Version.rejoined ⟨"01", [.Number 1]⟩ ≠ "01" :=
  ⟨by decide, by decide, by decide⟩

/-- Claim C3 (amended): for every string accepted by `Version::from_str`,
the Version stores the original string verbatim, every segment is non-empty
(it renders to a non-empty character sequence), and joining the segments with
"." (numeric segments rendered in decimal) reproduces the original string
PROVIDED every numeric piece of the input is canonical decimal (no leading
zeroes, no '+' sign) — the proviso the counterexample "01" forces. -/
theorem c3_segments_nonempty_rejoin (s : String) (v : Version)
    (h : Version.fromStr s = .ok v) :
    v.version = s ∧
    (∀ seg ∈ v.segments, segmentChars seg ≠ []) ∧
    ((splitDot s.data).all canonicalPiece = true → Version.rejoined v = s) := by
  simp only [Version.fromStr] at h
  split at h
  case isTrue => exact absurd h (by simp)
  case isFalse hany =>
    injection h with h2
    subst h2
    refine ⟨rfl, ?_, ?_⟩
    · intro seg hseg
      rw [List.mem_map] at hseg
      obtain ⟨p, hp, rfl⟩ := hseg
      have hpne : p ≠ [] := by
        intro h0
        exact hany (List.any_eq_true.mpr ⟨p, hp, by simp [h0]⟩)
      unfold pieceToSegment
      cases hc : parseU64 p with
      | none => simpa [segmentChars] using hpne
      | some k => simpa [segmentChars] using natDecimal_ne_nil k
    · intro hall
      have hcanon : ∀ p ∈ splitDot s.data, canonicalPiece p = true :=
        List.all_eq_true.mp hall
      have hmap : ∀ (ps : List (List Char)), (∀ p ∈ ps, canonicalPiece p = true) →
          (ps.map pieceToSegment).map segmentChars = ps := by
        intro ps
        induction ps with
        | nil => intro _; rfl
        | cons q qs ih =>
          intro hq
          simp only [List.map_cons]
          rw [segmentChars_pieceToSegment q (hq q (by simp)),
            ih (fun p hp => hq p (by simp [hp]))]
      unfold Version.rejoined
      simp only
      rw [hmap _ hcanon, joinDot_splitDot]

/-- Witness for C3's amended round-trip at the concrete input "1.2.3". -/
theorem c3_segments_nonempty_rejoin_witness :
    Version.rejoined ⟨"1.2.3", [.Number 1, .Number 2, .Number 3]⟩ = "1.2.3" :=
  (c3_segments_nonempty_rejoin "1.2.3"
    ⟨"1.2.3", [.Number 1, .Number 2, .Number 3]⟩ (by decide)).2.2 (by decide)

/-- Claim C4: `Version::from_str` splits on "."; any empty piece fails with
the malformed-version error, otherwise each piece becomes a numeric segment
exactly when it parses as a non-negative 64-bit integer and a textual segment
otherwise; "1..2" fails and "1.2.3" yields [Number 1, Number 2, Number 3]. -/
theorem c4_version_from_str_spec :
    (∀ s : String,
      ((∃ p ∈ splitDot s.data, p = []) →
        Version.fromStr s = .error (.malformedVersion s)) ∧
      ((∀ p ∈ splitDot s.data, p ≠ []) →
        Version.fromStr s = .ok ⟨s, (splitDot s.data).map pieceToSegment⟩)) ∧
    (∀ p n, pieceToSegment p = .Number n ↔ parseU64 p = some n) ∧
    (∀ p, pieceToSegment p = .String ⟨p⟩ ↔ parseU64 p = none) ∧
    Version.fromStr "1..2" = .error (.malformedVersion "1..2") ∧
    Version.fromStr "1.2.3" = .ok ⟨"1.2.3", [.Number 1, .Number 2, .Number 3]⟩ := by
  refine ⟨fun s => ⟨?_, ?_⟩, ?_, ?_, by decide, by decide⟩
  · rintro ⟨p, hp, rfl⟩
    have : (splitDot s.data).any (fun p => p.isEmpty) = true :=
      List.any_eq_true.mpr ⟨[], hp, by simp⟩
    simp [Version.fromStr, this]
  · intro hall
    have : ¬ (splitDot s.data).any (fun p => p.isEmpty) = true := by
      intro h
      obtain ⟨p, hp, hpe⟩ := List.any_eq_true.mp h
      exact hall p hp (by simpa using hpe)
    simp [Version.fromStr, this]
  · intro p n
    constructor
    · intro h
      unfold pieceToSegment at h
      cases hc : parseU64 p with
      | none =>
        rw [hc] at h
        exact absurd h (by simp)
      | some k =>
        rw [hc] at h
        simp only [VersionSegment.Number.injEq] at h
        rw [h]
    · intro h
      simp [pieceToSegment, h]
  · intro p
    constructor
    · intro h
      unfold pieceToSegment at h
      cases hc : parseU64 p with
      | none => rfl
      | some k =>
        rw [hc] at h
        exact absurd h (by simp)
    · intro h
      simp [pieceToSegment, h]

/-- Witness for C4 at the concrete input "1.a" (a non-empty-piece success
with one numeric and one textual segment). -/
theorem c4_version_from_str_spec_witness :
    Version.fromStr "1.a" =
      .ok ⟨"1.a", (splitDot "1.a".data).map pieceToSegment⟩ :=
  (c4_version_from_str_spec.1 "1.a").2 (by decide)

/-- A root mapping containing only `name: "rake"` — the "missing version"
input of spec §8. -/
def noVersionRootEvents : List YEvent :=
  [plainScalar "name", quotedScalar "rake", .mappingEnd]

/-- The rake scenario with the mandatory `summary` field removed. -/
def noSummarySpecEvents : List YEvent :=
  [ plainScalar "name", quotedScalar "rake",
    plainScalar "version", .mappingStart 0 (some verTag),
    plainScalar "version", quotedScalar "13.0.6", .mappingEnd,
    plainScalar "platform", quotedScalar "ruby",
    plainScalar "dependencies", .sequenceStart 0 none, .sequenceEnd,
    plainScalar "rubygems_version", quotedScalar "3.4.10",
    plainScalar "specification_version", plainScalar "4",
    plainScalar "require_paths", .sequenceStart 0 none, quotedScalar "lib",
    .sequenceEnd,
    plainScalar "homepage", quotedScalar "h",
    plainScalar "licenses", .sequenceStart 0 none, quotedScalar "MIT",
    .sequenceEnd,
    plainScalar "files", .sequenceStart 0 none, .sequenceEnd,
    plainScalar "authors", .sequenceStart 0 none, quotedScalar "a",
    .sequenceEnd,
    .mappingEnd ]

/-- Claim C5: a root mapping reaching `MappingEnd` without "version" does NOT
yield a typed MissingField error — the decoder PANICS (`Option::unwrap` on
`None` in the struct literal); the error enumeration of the source has no
missing-field variant at all.  Moreover most of the claimed mandatory fields
are never verified: the rake scenario with `summary` removed decodes
successfully, with `summary` silently defaulted to "". -/
theorem c5_missing_version_panics_not_typed :
    parseGemSpecification noVersionRootEvents =
      .panicked "Option::unwrap on None" ∧
    (∀ e : DecodeErr, parseGemSpecification noVersionRootEvents ≠ .err e) ∧
    parseGemSpecification noSummarySpecEvents =
      .ok { name := "rake",
            version := ⟨"13.0.6", [.Number 13, .Number 0, .Number 6]⟩,
            platform := ⟨"ruby"⟩, authors := ["a"] } [] ∧
    ({ name := "rake",
       version := ⟨"13.0.6", [.Number 13, .Number 0, .Number 6]⟩,
       platform := ⟨"ruby"⟩, authors := ["a"] } : Specification).summary = "" := by
  refine ⟨by decide, ?_, by decide, rfl⟩
  intro e h
  rw [show parseGemSpecification noVersionRootEvents =
    .panicked "Option::unwrap on None" from by decide] at h
  exact DResult.noConfusion h

/-- Claim C6: in the rake scenario every recognized field is decoded, but the
returned Specification does NOT store the decoded values of
summary/homepage/rubygems_version/specification_version/require_paths/licenses
— those fields come from `..Default::default()` (empty string / empty list /
zero), not from the input ("x", "h", "3.4.10", 4, ["lib"], ["MIT"]). -/
theorem c6_recognized_fields_not_stored :
    parseGemSpecification rakeSpecEvents =
      .ok { name := "rake",
            version := ⟨"13.0.6", [.Number 13, .Number 0, .Number 6]⟩,
            platform := ⟨"ruby"⟩, authors := ["a"] } [] ∧
    ({ name := "rake",
       version := ⟨"13.0.6", [.Number 13, .Number 0, .Number 6]⟩,
       platform := ⟨"ruby"⟩, authors := ["a"] } : Specification).summary ≠ "x" ∧
    ({ name := "rake",
       version := ⟨"13.0.6", [.Number 13, .Number 0, .Number 6]⟩,
       platform := ⟨"ruby"⟩, authors := ["a"] } : Specification).homepage ≠ "h" ∧
    ({ name := "rake",
       version := ⟨"13.0.6", [.Number 13, .Number 0, .Number 6]⟩,
       platform := ⟨"ruby"⟩,
       authors := ["a"] } : Specification).rubygems_version ≠ "3.4.10" ∧
    ({ name := "rake",
       version := ⟨"13.0.6", [.Number 13, .Number 0, .Number 6]⟩,
       platform := ⟨"ruby"⟩,
       authors := ["a"] } : Specification).specification_version ≠ 4 ∧
    ({ name := "rake",
       version := ⟨"13.0.6", [.Number 13, .Number 0, .Number 6]⟩,
       platform := ⟨"ruby"⟩,
       authors := ["a"] } : Specification).require_paths ≠ ["lib"] ∧
    ({ name := "rake",
       version := ⟨"13.0.6", [.Number 13, .Number 0, .Number 6]⟩,
       platform := ⟨"ruby"⟩,
       authors := ["a"] } : Specification).licenses ≠ ["MIT"] :=
  ⟨by decide, by decide, by decide, by decide, by decide, by decide, by decide⟩

theorem parseStr_quoted (s : String) :
    parseStr (.scalar s .doubleQuoted 0 none) = .ok s := rfl

theorem specKeyOf_name : specKeyOf "name" = some .name := by decide
theorem specKeyOf_version : specKeyOf "version" = some .version := by decide
theorem specKeyOf_platform : specKeyOf "platform" = some .platform := by decide
theorem specKeyOf_dependencies :
    specKeyOf "dependencies" = some .dependencies := by decide
theorem specKeyOf_rv :
    specKeyOf "rubygems_version" = some .rubygemsVersion := by decide
theorem specKeyOf_sv :
    specKeyOf "specification_version" = some .specificationVersion := by decide
theorem specKeyOf_summary : specKeyOf "summary" = some .summary := by decide
theorem specKeyOf_rp :
    specKeyOf "require_paths" = some .requirePaths := by decide
theorem specKeyOf_homepage : specKeyOf "homepage" = some .homepage := by decide
theorem specKeyOf_licenses : specKeyOf "licenses" = some .licenses := by decide
theorem specKeyOf_files : specKeyOf "files" = some .files := by decide
theorem specKeyOf_authors : specKeyOf "authors" = some .authors := by decide

theorem parseStr_plain_name :
    parseStr (.scalar "name" .plain 0 none) = .ok "name" := by decide
theorem parseStr_plain_version :
    parseStr (.scalar "version" .plain 0 none) = .ok "version" := by decide
theorem parseStr_plain_platform :
    parseStr (.scalar "platform" .plain 0 none) = .ok "platform" := by decide
theorem parseStr_plain_dependencies :
    parseStr (.scalar "dependencies" .plain 0 none) =
      .ok "dependencies" := by decide
theorem parseStr_plain_rv :
    parseStr (.scalar "rubygems_version" .plain 0 none) =
      .ok "rubygems_version" := by decide
theorem parseStr_plain_sv :
    parseStr (.scalar "specification_version" .plain 0 none) =
      .ok "specification_version" := by decide
theorem parseStr_plain_summary :
    parseStr (.scalar "summary" .plain 0 none) = .ok "summary" := by decide
theorem parseStr_plain_rp :
    parseStr (.scalar "require_paths" .plain 0 none) =
      .ok "require_paths" := by decide
theorem parseStr_plain_homepage :
    parseStr (.scalar "homepage" .plain 0 none) = .ok "homepage" := by decide
theorem parseStr_plain_licenses :
    parseStr (.scalar "licenses" .plain 0 none) = .ok "licenses" := by decide
theorem parseStr_plain_files :
    parseStr (.scalar "files" .plain 0 none) = .ok "files" := by decide
theorem parseStr_plain_authors :
    parseStr (.scalar "authors" .plain 0 none) = .ok "authors" := by decide
theorem parseStr_plain_type :
    parseStr (.scalar "type" .plain 0 none) = .ok "type" := by decide
theorem parseInteger_plain_4 :
    parseInteger (.scalar "4" .plain 0 none) = .ok 4 := by decide
theorem depKeyOf_type : depKeyOf "type" = some .type := by decide
theorem verTag_ok : rubyObjectTag verTag "Gem::Version" = true := by decide
theorem reqTag_ok : rubyObjectTag reqTag "Gem::Requirement" = true := by decide
theorem depTag_ok : rubyObjectTag depTag "Gem::Dependency" = true := by decide

set_option maxHeartbeats 1000000 in
/-- Claim C2: for every minimal valid specification event sequence (the
mandatory root fields in the scenario order, optional sequences empty, field
values arbitrary strings, any version string accepted by the version parser),
the Specification decoder succeeds and the returned record carries exactly
the decoded name, version and platform (and the single author); every other
field is the Default value.  Instantiated at the rake scenario by the
witness, giving `version.segments = [Number 13, Number 0, Number 6]` and
`dependencies = []`. -/
theorem c2_minimal_decode_preserves (name vstr platform rubygems summary
    reqpath homepage license author : String) (v : Version)
    (h : Version.fromStr vstr = .ok v) :
    parseGemSpecification (minimalSpecEvents name vstr platform rubygems
      summary reqpath homepage license author) =
      .ok { name := name, version := v, platform := ⟨platform⟩,
            authors := [author] } [] := by
  simp only [parseGemSpecification, minimalSpecEvents, List.length_cons,
    List.length_nil, plainScalar, quotedScalar]
  simp only [specGo, verGo, strListGo, depsGo, andThen, parseStr_quoted,
    specKeyOf_name, specKeyOf_version, specKeyOf_platform,
    specKeyOf_dependencies, specKeyOf_rv, specKeyOf_sv, specKeyOf_summary,
    specKeyOf_rp, specKeyOf_homepage, specKeyOf_licenses, specKeyOf_files,
    specKeyOf_authors, parseStr_plain_name, parseStr_plain_version,
    parseStr_plain_platform, parseStr_plain_dependencies, parseStr_plain_rv,
    parseStr_plain_sv, parseStr_plain_summary, parseStr_plain_rp,
    parseStr_plain_homepage, parseStr_plain_licenses, parseStr_plain_files,
    parseStr_plain_authors, parseInteger_plain_4, verTag_ok, reqTag_ok,
    depTag_ok, eq_self_iff_true, ite_true, List.nil_append, h]

/-- Witness for C2 at the concrete rake scenario of spec §8: decode succeeds,
`version.segments = [Number 13, Number 0, Number 6]`, `dependencies = []`
(the record's dependencies field is its Default `[]`). -/
theorem c2_minimal_decode_preserves_witness :
    parseGemSpecification rakeSpecEvents =
      .ok { name := "rake",
            version := ⟨"13.0.6", [.Number 13, .Number 0, .Number 6]⟩,
            platform := ⟨"ruby"⟩, authors := ["a"] } [] :=
  c2_minimal_decode_preserves "rake" "13.0.6" "ruby" "3.4.10" "x" "lib" "h"
    "MIT" "a" ⟨"13.0.6", [.Number 13, .Number 0, .Number 6]⟩ (by decide)

/-- The spec §8 dependency scenario events:
`{name:"json", requirement:{requirements:[["~>", {version:"2.6"}]]},
type:":runtime"}`, positioned after the dependency object's MappingStart. -/
def jsonRuntimeDepEvents : List YEvent :=
  [ plainScalar "name", quotedScalar "json",
    plainScalar "requirement", .mappingStart 0 (some reqTag) ] ++
  tildeReqEvents ++
  [ plainScalar "type", plainScalar ":runtime",
    .mappingEnd ]

/-- A development-kind dependency with an empty (unconstrained)
requirement. -/
def devDepEvents : List YEvent :=
  [ plainScalar "name", quotedScalar "dev",
    plainScalar "requirement", .mappingStart 0 (some reqTag), .mappingEnd,
    plainScalar "type", plainScalar ":development",
    .mappingEnd ]

/-- Claim C8: a dependency "type" value other than ":runtime" or
":development" is the typed error `unknownDependencyType` carrying the
offending value (for any string value and any following events — the decoder
fails immediately); ":runtime" yields kind Runtime and ":development" yields
kind Development. -/
theorem c8_dependency_type_policy :
    (∀ (s : String) (rest : List YEvent), s ≠ ":runtime" →
      s ≠ ":development" →
      parseDependency (plainScalar "type" :: quotedScalar s :: rest) =
        .err (.unknownDependencyType s)) ∧
    parseDependency jsonRuntimeDepEvents = .ok ⟨"json", ⟨[]⟩, .Runtime⟩ [] ∧
    parseDependency devDepEvents = .ok ⟨"dev", ⟨[]⟩, .Development⟩ [] := by
  refine ⟨?_, by decide, by decide⟩
  intro s rest h1 h2
  simp only [parseDependency, List.length_cons, plainScalar, quotedScalar]
  simp only [depGo, parseStr_plain_type, depKeyOf_type, parseStr_quoted,
    andThen, h1, h2, ite_false, eq_self_iff_true, ite_true]

/-- Witness for C8's negative branch at the spec §8 value ":test". -/
theorem c8_dependency_type_policy_witness :
    parseDependency [plainScalar "type", quotedScalar ":test"] =
      .err (.unknownDependencyType ":test") :=
  c8_dependency_type_policy.1 ":test" [] (by decide) (by decide)

/-- Claim C9: any root key outside the closed field enumeration makes the
Specification decoder fail with the unknown-field error carrying that key
(for any following events — the decoder fails immediately on reading the
key); in particular "unknown_future_field" is not in the enumeration and is
rejected even when the rest of the document is the valid rake scenario. -/
theorem c9_unknown_root_key_rejected :
    (∀ (key : String) (rest : List YEvent), specKeyOf key = none →
      parseGemSpecification (quotedScalar key :: rest) =
        .err (.unknownSpecField key)) ∧
    specKeyOf "unknown_future_field" = none ∧
    parseGemSpecification (plainScalar "unknown_future_field" ::
        rakeSpecEvents) = .err (.unknownSpecField "unknown_future_field") := by
  refine ⟨?_, by decide, by decide⟩
  intro key rest hk
  simp only [parseGemSpecification, List.length_cons, quotedScalar]
  simp only [specGo, parseStr_quoted, andThen, hk]

/-- Witness for C9 at the concrete key "unknown_future_field". -/
theorem c9_unknown_root_key_rejected_witness :
    parseGemSpecification [quotedScalar "unknown_future_field"] =
      .err (.unknownSpecField "unknown_future_field") :=
  c9_unknown_root_key_rejected.1 "unknown_future_field" [] (by decide)

/-- Modelled from the spec: comparison of two version segments.  The
repository declares `VersionSegment` (lib.rs, deriving only
PartialEq/Eq) but contains no ordering implementation; the spec's §4.3
ordering contract says "at a position where types differ, numeric sorts
before textual".  Equal-type segments compare by value (numeric) or text
(textual). -/
def segCompare : VersionSegment → VersionSegment → Ordering
  | .Number a, .Number b => if a = b then .eq else if a < b then .lt else .gt
  | .Number _, .String _ => .lt
  | .String _, .Number _ => .gt
  | .String a, .String b => if a = b then .eq else if a < b then .lt else .gt

/-- Modelled from the spec: comparison of two segment sequences — "segments
compare pairwise left-to-right" and "a shorter segment sequence is padded
with zero at missing trailing positions for comparison purposes". -/
def segsCompare : List VersionSegment → List VersionSegment → Ordering
  | [], [] => .eq
  | [], b :: ys =>
    (match segCompare (.Number 0) b with
    | .eq => segsCompare [] ys
    | o => o)
  | a :: xs, [] =>
    (match segCompare a (.Number 0) with
    | .eq => segsCompare xs []
    | o => o)
  | a :: xs, b :: ys =>
    (match segCompare a b with
    | .eq => segsCompare xs ys
    | o => o)

/-- Modelled from the spec: Version values "compare by their segment
sequences". -/
def versionCompare (v w : Version) : Ordering :=
  segsCompare v.segments w.segments

theorem segCompare_self (a : VersionSegment) : segCompare a a = .eq := by
  cases a <;> simp [segCompare]

theorem segsCompare_pad_right (xs : List VersionSegment) (k : Nat) :
    segsCompare xs (xs ++ List.replicate k (.Number 0)) = .eq := by
  induction xs with
  | nil =>
    induction k with
    | zero => simp [segsCompare]
    | succ k ih =>
      simpa [List.replicate_succ, segsCompare, segCompare] using ih
  | cons x xs ih => simp [segsCompare, segCompare_self, ih]

theorem segsCompare_pad_left (xs : List VersionSegment) (k : Nat) :
    segsCompare (xs ++ List.replicate k (.Number 0)) xs = .eq := by
  induction xs with
  | nil =>
    induction k with
    | zero => simp [segsCompare]
    | succ k ih =>
      simpa [List.replicate_succ, segsCompare, segCompare] using ih
  | cons x xs ih => simp [segsCompare, segCompare_self, ih]

/-- Claim C10 (spec-modelled: the repository has no Ord/PartialOrd
implementation for Version/VersionSegment, only the declarations cited by
the claim, so the comparison is modelled from the spec's own ordering
contract): segment sequences compare pairwise left-to-right (the first
non-equal position decides; equal positions defer to the rest); at a
position where the types differ the numeric segment sorts before the
textual one; and padding either sequence with trailing numeric zeroes does
not change the comparison (a shorter sequence behaves as if zero-padded). -/
theorem c10_version_ordering_contract :
    (∀ (a b : VersionSegment) (xs ys : List VersionSegment),
      segCompare a b ≠ .eq →
      segsCompare (a :: xs) (b :: ys) = segCompare a b) ∧
    (∀ (a b : VersionSegment) (xs ys : List VersionSegment),
      segCompare a b = .eq →
      segsCompare (a :: xs) (b :: ys) = segsCompare xs ys) ∧
    (∀ (n : Nat) (s : String), segCompare (.Number n) (.String s) = .lt ∧
      segCompare (.String s) (.Number n) = .gt) ∧
    (∀ (v : Version) (k : Nat),
      versionCompare v
        ⟨v.version, v.segments ++ List.replicate k (.Number 0)⟩ = .eq ∧
      versionCompare
        ⟨v.version, v.segments ++ List.replicate k (.Number 0)⟩ v = .eq) := by
  refine ⟨?_, ?_, ?_, ?_⟩
  · intro a b xs ys h
    cases hc : segCompare a b with
    | eq => exact absurd hc h
    | lt => simp [segsCompare, hc]
    | gt => simp [segsCompare, hc]
  · intro a b xs ys h
    simp [segsCompare, h]
  · intro n s
    exact ⟨rfl, rfl⟩
  · intro v k
    exact ⟨segsCompare_pad_right v.segments k, segsCompare_pad_left v.segments k⟩

/-- Witness for C10 at concrete segments: `1.x` sorts after `1.2` because at
the first differing position the numeric segment sorts before the textual
one. -/
theorem c10_version_ordering_contract_witness :
    segsCompare [.Number 1, .String "x"] [.Number 1, .Number 2] =
      segsCompare [.String "x"] [.Number 2] ∧
    segsCompare [.String "x"] [.Number 2] = segCompare (.String "x") (.Number 2) ∧
    segCompare (.String "x") (.Number 2) = .gt :=
  ⟨c10_version_ordering_contract.2.1 (.Number 1) (.Number 1) [.String "x"]
      [.Number 2] (by decide),
    c10_version_ordering_contract.1 (.String "x") (.Number 2) [] []
      (by decide),
    by decide⟩

/-- Totality certificate for a decode result: the fuel was not exhausted,
and on success the remaining event list is no longer than `L` (each decoder
only ever consumes events). -/
def Tot {α : Type} (r : DResult α) (L : Nat) : Prop :=
  r ≠ .fuelOut ∧ ∀ (a : α) (rest : List YEvent), r = .ok a rest → rest.length ≤ L

theorem tot_ok {α : Type} {a : α} {rest : List YEvent} {L : Nat}
    (h : rest.length ≤ L) : Tot (DResult.ok a rest) L := by
  refine ⟨fun hc => DResult.noConfusion hc, ?_⟩
  intro a' r' he
  injection he with h1 h2
  subst h2
  exact h

theorem tot_err {α : Type} {e : DecodeErr} {L : Nat} :
    Tot (DResult.err e : DResult α) L :=
  ⟨fun hc => DResult.noConfusion hc, fun _ _ he => DResult.noConfusion he⟩

theorem tot_panicked {α : Type} {m : String} {L : Nat} :
    Tot (DResult.panicked m : DResult α) L :=
  ⟨fun hc => DResult.noConfusion hc, fun _ _ he => DResult.noConfusion he⟩

theorem tot_mono {α : Type} {r : DResult α} {L L' : Nat} (h : Tot r L)
    (hL : L ≤ L') : Tot r L' :=
  ⟨h.1, fun a rest he => le_trans (h.2 a rest he) hL⟩

theorem tot_andThen {α β : Type} {r : DResult α} {k : α → List YEvent → DResult β}
    {L : Nat} (hr : Tot r L)
    (hk : ∀ (a : α) (rest : List YEvent), r = .ok a rest → rest.length ≤ L →
      Tot (k a rest) L) :
    Tot (andThen r k) L := by
  cases r with
  | ok a rest => exact hk a rest rfl (hr.2 a rest rfl)
  | err e => exact tot_err
  | panicked m => exact tot_panicked
  | fuelOut => exact absurd rfl hr.1

/-- The version-decoder loop is total and consumes events when fuel exceeds
the event count. -/
theorem verGo_tot : ∀ (fuel : Nat) (st : VerState) (ver? : Option String)
    (l : List YEvent), l.length < fuel → Tot (verGo fuel st ver? l) l.length := by
  intro fuel
  induction fuel with
  | zero =>
    intro st ver? l hl
    exact absurd hl (Nat.not_lt_zero _)
  | succ n ih =>
    intro st ver? l hl
    cases l with
    | nil =>
      simp only [verGo]
      exact tot_err
    | cons e rest =>
      have hr : rest.length < n := by
        simp only [List.length_cons] at hl
        omega
      have hle : rest.length ≤ (e :: rest).length := by simp
      cases st with
      | key =>
        cases e with
        | mappingEnd =>
          cases ver? with
          | none =>
            simp only [verGo]
            exact tot_err
          | some v =>
            simp only [verGo]
            split
            · exact tot_ok hle
            · exact tot_err
        | streamStart =>
          simp only [verGo]
          split
          · exact tot_err
          · split
            · exact tot_mono (ih _ _ _ hr) hle
            · exact tot_err
        | documentStart =>
          simp only [verGo]
          split
          · exact tot_err
          · split
            · exact tot_mono (ih _ _ _ hr) hle
            · exact tot_err
        | documentEnd =>
          simp only [verGo]
          split
          · exact tot_err
          · split
            · exact tot_mono (ih _ _ _ hr) hle
            · exact tot_err
        | streamEnd =>
          simp only [verGo]
          split
          · exact tot_err
          · split
            · exact tot_mono (ih _ _ _ hr) hle
            · exact tot_err
        | scalar v s a t =>
          simp only [verGo]
          split
          · exact tot_err
          · split
            · exact tot_mono (ih _ _ _ hr) hle
            · exact tot_err
        | mappingStart a t =>
          simp only [verGo]
          split
          · exact tot_err
          · split
            · exact tot_mono (ih _ _ _ hr) hle
            · exact tot_err
        | sequenceStart a t =>
          simp only [verGo]
          split
          · exact tot_err
          · split
            · exact tot_mono (ih _ _ _ hr) hle
            · exact tot_err
        | sequenceEnd =>
          simp only [verGo]
          split
          · exact tot_err
          · split
            · exact tot_mono (ih _ _ _ hr) hle
            · exact tot_err
      | value =>
        cases e <;>
          (simp only [verGo]
           split
           · exact tot_err
           · exact tot_mono (ih _ _ _ hr) hle)


/-- The requirements-sequence loop is total and consumes events when fuel
exceeds the event count. -/
theorem reqPairsGo_tot : ∀ (fuel : Nat) (l : List YEvent),
    l.length < fuel → Tot (reqPairsGo fuel l) l.length := by
  intro fuel
  induction fuel with
  | zero =>
    intro l hl
    exact absurd hl (Nat.not_lt_zero _)
  | succ n ih =>
    intro l hl
    cases l with
    | nil =>
      simp only [reqPairsGo]
      exact tot_ok (Nat.le_refl 0)
    | cons e rest =>
      have hr : rest.length < n := by
        simp only [List.length_cons] at hl
        omega
      have hle : rest.length ≤ (e :: rest).length := by simp
      have generic : ∀ (ev : YEvent),
          Tot (match parseStr ev with
               | .error er => DResult.err er
               | .ok _ => reqPairsGo n rest) ((e :: rest).length) := by
        intro ev
        cases hp : parseStr ev with
        | error er => exact tot_err
        | ok k => exact tot_mono (ih _ hr) hle
      cases e with
      | sequenceEnd =>
        simp only [reqPairsGo]
        exact tot_ok hle
      | sequenceStart aid tag =>
        cases tag with
        | some t =>
          simp only [reqPairsGo]
          exact generic (YEvent.sequenceStart aid (some t))
        | none =>
          cases rest with
          | nil =>
            simp only [reqPairsGo]
            exact tot_panicked
          | cons opEv rest2 =>
            simp only [reqPairsGo]
            cases hp : parseStr opEv with
            | error er => exact tot_err
            | ok op =>
              cases rest2 with
              | nil => exact tot_panicked
              | cons vEv rest3 =>
                have h3 : rest3.length < n := by
                  simp only [List.length_cons] at hl
                  omega
                have hle3 : rest3.length ≤
                    (YEvent.sequenceStart aid none :: opEv :: vEv :: rest3).length := by
                  simp
                  omega
                cases vEv with
                | mappingStart a2 t2 =>
                  cases t2 with
                  | none => exact tot_panicked
                  | some tg =>
                    dsimp only
                    by_cases htag : rubyObjectTag tg "Gem::Version" = true
                    · rw [if_pos htag]
                      refine tot_andThen
                        (tot_mono (verGo_tot n .key none rest3 h3) hle3) ?_
                      intro ver rest4 hok _
                      have h4 : rest4.length ≤ rest3.length :=
                        (verGo_tot n .key none rest3 h3).2 ver rest4 hok
                      cases rest4 with
                      | nil => exact tot_panicked
                      | cons se rest5 =>
                        dsimp only
                        by_cases hse : se = YEvent.sequenceEnd
                        · rw [if_pos hse]
                          have h5 : rest5.length < n := by
                            simp only [List.length_cons] at h4
                            omega
                          refine tot_mono (ih rest5 h5) ?_
                          simp only [List.length_cons] at h4 ⊢
                          omega
                        · rw [if_neg hse]
                          exact tot_panicked
                    · rw [if_neg htag]
                      exact tot_panicked
                | streamStart => exact tot_panicked
                | documentStart => exact tot_panicked
                | documentEnd => exact tot_panicked
                | streamEnd => exact tot_panicked
                | scalar v s a t => exact tot_panicked
                | mappingEnd => exact tot_panicked
                | sequenceStart a t => exact tot_panicked
                | sequenceEnd => exact tot_panicked
      | streamStart =>
        simp only [reqPairsGo]
        exact generic YEvent.streamStart
      | documentStart =>
        simp only [reqPairsGo]
        exact generic YEvent.documentStart
      | documentEnd =>
        simp only [reqPairsGo]
        exact generic YEvent.documentEnd
      | streamEnd =>
        simp only [reqPairsGo]
        exact generic YEvent.streamEnd
      | scalar v s a t =>
        simp only [reqPairsGo]
        exact generic (YEvent.scalar v s a t)
      | mappingStart a t =>
        simp only [reqPairsGo]
        exact generic (YEvent.mappingStart a t)
      | mappingEnd =>
        simp only [reqPairsGo]
        exact generic YEvent.mappingEnd

/-- The requirement-decoder loop is total and consumes events when fuel
exceeds the event count. -/
theorem reqGo_tot : ∀ (fuel : Nat) (st : Option ReqKey)
    (reqs : List (RequirementOperator × Version)) (l : List YEvent),
    l.length < fuel → Tot (reqGo fuel st reqs l) l.length := by
  intro fuel
  induction fuel with
  | zero =>
    intro st reqs l hl
    exact absurd hl (Nat.not_lt_zero _)
  | succ n ih =>
    intro st reqs l hl
    cases l with
    | nil =>
      cases st with
      | none => simp only [reqGo]; exact tot_err
      | some k => cases k; simp only [reqGo]; exact tot_err
    | cons e rest =>
      have hr : rest.length < n := by
        simp only [List.length_cons] at hl
        omega
      have hle : rest.length ≤ (e :: rest).length := by simp
      have generic : ∀ (ev : YEvent),
          Tot (match parseStr ev with
               | .error er => DResult.err er
               | .ok k =>
                 if k = "requirements" then reqGo n (some .requirements) reqs rest
                 else DResult.err (.unknownRequirementKey k))
            ((e :: rest).length) := by
        intro ev
        cases hp : parseStr ev with
        | error er => exact tot_err
        | ok k =>
          dsimp only
          by_cases hk : k = "requirements"
          · rw [if_pos hk]
            exact tot_mono (ih _ _ _ hr) hle
          · rw [if_neg hk]
            exact tot_err
      cases st with
      | none =>
        cases e with
        | mappingEnd =>
          simp only [reqGo]
          exact tot_ok hle
        | streamStart => simp only [reqGo]; exact generic YEvent.streamStart
        | documentStart => simp only [reqGo]; exact generic YEvent.documentStart
        | documentEnd => simp only [reqGo]; exact generic YEvent.documentEnd
        | streamEnd => simp only [reqGo]; exact generic YEvent.streamEnd
        | scalar v s a t => simp only [reqGo]; exact generic (YEvent.scalar v s a t)
        | mappingStart a t => simp only [reqGo]; exact generic (YEvent.mappingStart a t)
        | sequenceStart a t => simp only [reqGo]; exact generic (YEvent.sequenceStart a t)
        | sequenceEnd => simp only [reqGo]; exact generic YEvent.sequenceEnd
      | some k =>
        cases k
        cases e with
        | sequenceStart aid tag =>
          cases tag with
          | none =>
            simp only [reqGo]
            refine tot_andThen (tot_mono (reqPairsGo_tot n rest hr) hle) ?_
            intro u rest2 hok _
            have h2 : rest2.length ≤ rest.length :=
              (reqPairsGo_tot n rest hr).2 u rest2 hok
            exact tot_mono (ih none reqs rest2 (lt_of_le_of_lt h2 hr))
              (le_trans h2 hle)
          | some t =>
            simp only [reqGo]
            exact tot_panicked
        | streamStart => simp only [reqGo]; exact tot_panicked
        | documentStart => simp only [reqGo]; exact tot_panicked
        | documentEnd => simp only [reqGo]; exact tot_panicked
        | streamEnd => simp only [reqGo]; exact tot_panicked
        | scalar v s a t => simp only [reqGo]; exact tot_panicked
        | mappingStart a t => simp only [reqGo]; exact tot_panicked
        | mappingEnd => simp only [reqGo]; exact tot_panicked
        | sequenceEnd => simp only [reqGo]; exact tot_panicked

/-- The string-sequence collector loop is total and consumes events when fuel
exceeds the event count. -/
theorem strListGo_tot : ∀ (fuel : Nat) (l : List YEvent),
    l.length < fuel → Tot (strListGo fuel l) l.length := by
  intro fuel
  induction fuel with
  | zero =>
    intro l hl
    exact absurd hl (Nat.not_lt_zero _)
  | succ n ih =>
    intro l hl
    cases l with
    | nil =>
      simp only [strListGo]
      exact tot_ok (Nat.le_refl 0)
    | cons e rest =>
      have hr : rest.length < n := by
        simp only [List.length_cons] at hl
        omega
      have hle : rest.length ≤ (e :: rest).length := by simp
      have generic : ∀ (ev : YEvent),
          Tot (match parseStr ev with
               | .error er => DResult.err er
               | .ok s => andThen (strListGo n rest)
                   (fun lst r2 => DResult.ok (s :: lst) r2))
            ((e :: rest).length) := by
        intro ev
        cases hp : parseStr ev with
        | error er => exact tot_err
        | ok s =>
          dsimp only
          refine tot_andThen (tot_mono (ih rest hr) hle) ?_
          intro lst r2 hok hle2
          exact tot_ok hle2
      cases e with
      | sequenceEnd =>
        simp only [strListGo]
        exact tot_ok hle
      | streamStart => simp only [strListGo]; exact generic YEvent.streamStart
      | documentStart => simp only [strListGo]; exact generic YEvent.documentStart
      | documentEnd => simp only [strListGo]; exact generic YEvent.documentEnd
      | streamEnd => simp only [strListGo]; exact generic YEvent.streamEnd
      | scalar v s a t => simp only [strListGo]; exact generic (YEvent.scalar v s a t)
      | mappingStart a t => simp only [strListGo]; exact generic (YEvent.mappingStart a t)
      | sequenceStart a t => simp only [strListGo]; exact generic (YEvent.sequenceStart a t)
      | mappingEnd => simp only [strListGo]; exact generic YEvent.mappingEnd

/-- The metadata-mapping consumer loop is total and consumes events when fuel
exceeds the event count. -/
theorem mapStrGo_tot : ∀ (fuel : Nat) (l : List YEvent),
    l.length < fuel → Tot (mapStrGo fuel l) l.length := by
  intro fuel
  induction fuel with
  | zero =>
    intro l hl
    exact absurd hl (Nat.not_lt_zero _)
  | succ n ih =>
    intro l hl
    cases l with
    | nil =>
      simp only [mapStrGo]
      exact tot_ok (Nat.le_refl 0)
    | cons e rest =>
      have hr : rest.length < n := by
        simp only [List.length_cons] at hl
        omega
      have hle : rest.length ≤ (e :: rest).length := by simp
      have generic : ∀ (ev : YEvent),
          Tot (match parseStr ev with
               | .error er => DResult.err er
               | .ok s => mapStrGo n rest)
            ((e :: rest).length) := by
        intro ev
        cases hp : parseStr ev with
        | error er => exact tot_err
        | ok s => exact tot_mono (ih rest hr) hle
      cases e with
      | mappingEnd =>
        simp only [mapStrGo]
        exact tot_ok hle
      | streamStart => simp only [mapStrGo]; exact generic YEvent.streamStart
      | documentStart => simp only [mapStrGo]; exact generic YEvent.documentStart
      | documentEnd => simp only [mapStrGo]; exact generic YEvent.documentEnd
      | streamEnd => simp only [mapStrGo]; exact generic YEvent.streamEnd
      | scalar v s a t => simp only [mapStrGo]; exact generic (YEvent.scalar v s a t)
      | mappingStart a t => simp only [mapStrGo]; exact generic (YEvent.mappingStart a t)
      | sequenceStart a t => simp only [mapStrGo]; exact generic (YEvent.sequenceStart a t)
      | sequenceEnd => simp only [mapStrGo]; exact generic YEvent.sequenceEnd

/-- The dependency-decoder loop is total and consumes events when fuel
exceeds the event count. -/
theorem depGo_tot : ∀ (fuel : Nat) (st : Option DepKey) (name? : Option String)
    (req? : Option Requirement) (ty? : Option DependencyType) (l : List YEvent),
    l.length < fuel → Tot (depGo fuel st name? req? ty? l) l.length := by
  intro fuel
  induction fuel with
  | zero =>
    intro st name? req? ty? l hl
    exact absurd hl (Nat.not_lt_zero _)
  | succ n ih =>
    intro st name? req? ty? l hl
    cases l with
    | nil =>
      cases st with
      | none => simp only [depGo]; exact tot_err
      | some dk => cases dk <;> (simp only [depGo]; exact tot_err)
    | cons e rest =>
      have hr : rest.length < n := by
        simp only [List.length_cons] at hl
        omega
      have hle : rest.length ≤ (e :: rest).length := by simp
      cases st with
      | none =>
        have generic : ∀ (ev : YEvent),
            Tot (match parseStr ev with
                 | .error er => DResult.err er
                 | .ok k =>
                   match depKeyOf k with
                   | some dk => depGo n (some dk) name? req? ty? rest
                   | none => DResult.err (.unknownDependencyKey k))
              ((e :: rest).length) := by
          intro ev
          cases hp : parseStr ev with
          | error er => exact tot_err
          | ok k =>
            dsimp only
            cases hd : depKeyOf k with
            | some dk => exact tot_mono (ih _ _ _ _ _ hr) hle
            | none => exact tot_err
        cases e with
        | mappingEnd =>
          simp only [depGo]
          cases name? <;> cases req? <;> cases ty? <;>
            first
              | exact tot_ok hle
              | exact tot_panicked
        | streamStart => simp only [depGo]; exact generic YEvent.streamStart
        | documentStart => simp only [depGo]; exact generic YEvent.documentStart
        | documentEnd => simp only [depGo]; exact generic YEvent.documentEnd
        | streamEnd => simp only [depGo]; exact generic YEvent.streamEnd
        | scalar v s a t => simp only [depGo]; exact generic (YEvent.scalar v s a t)
        | mappingStart a t => simp only [depGo]; exact generic (YEvent.mappingStart a t)
        | sequenceStart a t => simp only [depGo]; exact generic (YEvent.sequenceStart a t)
        | sequenceEnd => simp only [depGo]; exact generic YEvent.sequenceEnd
      | some dk =>
        cases dk with
        | name =>
          have gname : ∀ (ev : YEvent),
              Tot (match parseStr ev with
                   | .error er => DResult.err er
                   | .ok nm => depGo n none (some nm) req? ty? rest)
                ((e :: rest).length) := by
            intro ev
            cases hp : parseStr ev with
            | error er => exact tot_err
            | ok nm => exact tot_mono (ih _ _ _ _ _ hr) hle
          cases e with
          | streamStart => simp only [depGo]; exact gname YEvent.streamStart
          | documentStart => simp only [depGo]; exact gname YEvent.documentStart
          | documentEnd => simp only [depGo]; exact gname YEvent.documentEnd
          | streamEnd => simp only [depGo]; exact gname YEvent.streamEnd
          | scalar v s a t => simp only [depGo]; exact gname (YEvent.scalar v s a t)
          | mappingStart a t => simp only [depGo]; exact gname (YEvent.mappingStart a t)
          | mappingEnd => simp only [depGo]; exact gname YEvent.mappingEnd
          | sequenceStart a t => simp only [depGo]; exact gname (YEvent.sequenceStart a t)
          | sequenceEnd => simp only [depGo]; exact gname YEvent.sequenceEnd
        | requirement =>
          simp only [depGo]
          refine tot_andThen (tot_mono (reqGo_tot n none [] rest hr) hle) ?_
          intro rq rest2 hok _
          have h2 : rest2.length ≤ rest.length :=
            (reqGo_tot n none [] rest hr).2 rq rest2 hok
          exact tot_mono (ih none name? (some rq) ty? rest2
            (lt_of_le_of_lt h2 hr)) (le_trans h2 hle)
        | type =>
          have gtype : ∀ (ev : YEvent),
              Tot (match parseStr ev with
                   | .error er => DResult.err er
                   | .ok ts =>
                     if ts = ":runtime" then
                       depGo n none name? req? (some .Runtime) rest
                     else if ts = ":development" then
                       depGo n none name? req? (some .Development) rest
                     else DResult.err (.unknownDependencyType ts))
                ((e :: rest).length) := by
            intro ev
            cases hp : parseStr ev with
            | error er => exact tot_err
            | ok ts =>
              dsimp only
              by_cases h1 : ts = ":runtime"
              · rw [if_pos h1]
                exact tot_mono (ih _ _ _ _ _ hr) hle
              · rw [if_neg h1]
                by_cases h2 : ts = ":development"
                · rw [if_pos h2]
                  exact tot_mono (ih _ _ _ _ _ hr) hle
                · rw [if_neg h2]
                  exact tot_err
          cases e with
          | streamStart => simp only [depGo]; exact gtype YEvent.streamStart
          | documentStart => simp only [depGo]; exact gtype YEvent.documentStart
          | documentEnd => simp only [depGo]; exact gtype YEvent.documentEnd
          | streamEnd => simp only [depGo]; exact gtype YEvent.streamEnd
          | scalar v s a t => simp only [depGo]; exact gtype (YEvent.scalar v s a t)
          | mappingStart a t => simp only [depGo]; exact gtype (YEvent.mappingStart a t)
          | mappingEnd => simp only [depGo]; exact gtype YEvent.mappingEnd
          | sequenceStart a t => simp only [depGo]; exact gtype (YEvent.sequenceStart a t)
          | sequenceEnd => simp only [depGo]; exact gtype YEvent.sequenceEnd
        | prerelease =>
          cases e with
          | scalar v s a t =>
            cases a with
            | zero =>
              cases t with
              | none =>
                simp only [depGo]
                exact tot_mono (ih _ _ _ _ _ hr) hle
              | some tg => simp only [depGo]; exact tot_panicked
            | succ a' => simp only [depGo]; exact tot_panicked
          | streamStart => simp only [depGo]; exact tot_panicked
          | documentStart => simp only [depGo]; exact tot_panicked
          | documentEnd => simp only [depGo]; exact tot_panicked
          | streamEnd => simp only [depGo]; exact tot_panicked
          | mappingStart a t => simp only [depGo]; exact tot_panicked
          | mappingEnd => simp only [depGo]; exact tot_panicked
          | sequenceStart a t => simp only [depGo]; exact tot_panicked
          | sequenceEnd => simp only [depGo]; exact tot_panicked
        | versionRequirements =>
          cases e with
          | mappingStart a t =>
            cases a with
            | zero =>
              cases t with
              | none => simp only [depGo]; exact tot_panicked
              | some tg =>
                simp only [depGo]
                by_cases htag : rubyObjectTag tg "Gem::Requirement" = true
                · rw [if_pos htag]
                  refine tot_andThen (tot_mono (reqGo_tot n none [] rest hr) hle) ?_
                  intro rq rest2 hok _
                  have h2 : rest2.length ≤ rest.length :=
                    (reqGo_tot n none [] rest hr).2 rq rest2 hok
                  exact tot_mono (ih none name? req? ty? rest2
                    (lt_of_le_of_lt h2 hr)) (le_trans h2 hle)
                · rw [if_neg htag]
                  exact tot_panicked
            | succ a' => simp only [depGo]; exact tot_panicked
          | streamStart => simp only [depGo]; exact tot_panicked
          | documentStart => simp only [depGo]; exact tot_panicked
          | documentEnd => simp only [depGo]; exact tot_panicked
          | streamEnd => simp only [depGo]; exact tot_panicked
          | scalar v s a t => simp only [depGo]; exact tot_panicked
          | mappingEnd => simp only [depGo]; exact tot_panicked
          | sequenceStart a t => simp only [depGo]; exact tot_panicked
          | sequenceEnd => simp only [depGo]; exact tot_panicked

/-- The dependencies-sequence loop is total and consumes events when fuel
exceeds the event count. -/
theorem depsGo_tot : ∀ (fuel : Nat) (l : List YEvent),
    l.length < fuel → Tot (depsGo fuel l) l.length := by
  intro fuel
  induction fuel with
  | zero =>
    intro l hl
    exact absurd hl (Nat.not_lt_zero _)
  | succ n ih =>
    intro l hl
    cases l with
    | nil =>
      simp only [depsGo]
      exact tot_ok (Nat.le_refl 0)
    | cons e rest =>
      have hr : rest.length < n := by
        simp only [List.length_cons] at hl
        omega
      have hle : rest.length ≤ (e :: rest).length := by simp
      cases e with
      | sequenceEnd =>
        simp only [depsGo]
        exact tot_ok hle
      | mappingStart a t =>
        cases t with
        | none => simp only [depsGo]; exact tot_err
        | some tg =>
          simp only [depsGo]
          by_cases htag : rubyObjectTag tg "Gem::Dependency" = true
          · rw [if_pos htag]
            refine tot_andThen
              (tot_mono (depGo_tot n none none none none rest hr) hle) ?_
            intro d r2 hok _
            have h2 : r2.length ≤ rest.length :=
              (depGo_tot n none none none none rest hr).2 d r2 hok
            refine tot_andThen (tot_mono (ih r2 (lt_of_le_of_lt h2 hr))
              (le_trans h2 hle)) ?_
            intro ds r3 hok3 hle3
            exact tot_ok hle3
          · rw [if_neg htag]
            exact tot_err
      | streamStart => simp only [depsGo]; exact tot_err
      | documentStart => simp only [depsGo]; exact tot_err
      | documentEnd => simp only [depsGo]; exact tot_err
      | streamEnd => simp only [depsGo]; exact tot_err
      | scalar v s a t => simp only [depsGo]; exact tot_err
      | mappingEnd => simp only [depsGo]; exact tot_err
      | sequenceStart a t => simp only [depsGo]; exact tot_err

/-- The root `requirements` field loop is total and consumes events when fuel
exceeds the event count. -/
theorem specReqsGo_tot : ∀ (fuel : Nat) (l : List YEvent),
    l.length < fuel → Tot (specReqsGo fuel l) l.length := by
  intro fuel
  induction fuel with
  | zero =>
    intro l hl
    exact absurd hl (Nat.not_lt_zero _)
  | succ n ih =>
    intro l hl
    cases l with
    | nil =>
      simp only [specReqsGo]
      exact tot_ok (Nat.le_refl 0)
    | cons e rest =>
      have hr : rest.length < n := by
        simp only [List.length_cons] at hl
        omega
      have hle : rest.length ≤ (e :: rest).length := by simp
      have generic :
          Tot (andThen (reqGo n none [] rest)
            (fun _ r2 => specReqsGo n r2)) ((e :: rest).length) := by
        refine tot_andThen (tot_mono (reqGo_tot n none [] rest hr) hle) ?_
        intro rq r2 hok _
        have h2 : r2.length ≤ rest.length :=
          (reqGo_tot n none [] rest hr).2 rq r2 hok
        exact tot_mono (ih r2 (lt_of_le_of_lt h2 hr)) (le_trans h2 hle)
      cases e with
      | sequenceEnd =>
        simp only [specReqsGo]
        exact tot_ok hle
      | streamStart => simp only [specReqsGo]; exact generic
      | documentStart => simp only [specReqsGo]; exact generic
      | documentEnd => simp only [specReqsGo]; exact generic
      | streamEnd => simp only [specReqsGo]; exact generic
      | scalar v s a t => simp only [specReqsGo]; exact generic
      | mappingStart a t => simp only [specReqsGo]; exact generic
      | mappingEnd => simp only [specReqsGo]; exact generic
      | sequenceStart a t => simp only [specReqsGo]; exact generic

/-- The specification-decoder loop is total and consumes events when fuel
exceeds the event count. -/
theorem specGo_tot : ∀ (fuel : Nat) (st : Option SpecField) (acc : SpecAcc)
    (l : List YEvent), l.length < fuel → Tot (specGo fuel st acc l) l.length := by
  intro fuel
  induction fuel with
  | zero =>
    intro st acc l hl
    exact absurd hl (Nat.not_lt_zero _)
  | succ n ih =>
    intro st acc l hl
    cases l with
    | nil =>
      cases st with
      | none => simp only [specGo]; exact tot_err
      | some f => cases f <;> (simp only [specGo]; exact tot_err)
    | cons e rest =>
      have hr : rest.length < n := by
        simp only [List.length_cons] at hl
        omega
      have hle : rest.length ≤ (e :: rest).length := by simp
      have gstr : ∀ (ev : YEvent) (g : String → DResult Specification),
          (∀ s, Tot (g s) ((e :: rest).length)) →
          Tot (match parseStr ev with
               | .error er => DResult.err er
               | .ok s => g s) ((e :: rest).length) := by
        intro ev g hg
        cases hp : parseStr ev with
        | error er => exact tot_err
        | ok s => exact hg s
      have gnull : ∀ (ev : YEvent) (g : Unit → DResult Specification),
          (∀ u, Tot (g u) ((e :: rest).length)) →
          Tot (match parseNull ev with
               | .error er => DResult.err er
               | .ok u => g u) ((e :: rest).length) := by
        intro ev g hg
        cases hp : parseNull ev with
        | error er => exact tot_err
        | ok u => exact hg u
      have gint : ∀ (ev : YEvent) (g : Int → DResult Specification),
          (∀ i, Tot (g i) ((e :: rest).length)) →
          Tot (match parseInteger ev with
               | .error er => DResult.err er
               | .ok i => g i) ((e :: rest).length) := by
        intro ev g hg
        cases hp : parseInteger ev with
        | error er => exact tot_err
        | ok i => exact hg i
      have hrec : ∀ (acc' : SpecAcc), Tot (specGo n none acc' rest)
          ((e :: rest).length) :=
        fun acc' => tot_mono (ih none acc' rest hr) hle
      have glist : ∀ (k : List String → SpecAcc),
          Tot (andThen (strListGo n rest)
            (fun lst r2 => specGo n none (k lst) r2)) ((e :: rest).length) := by
        intro k
        refine tot_andThen (tot_mono (strListGo_tot n rest hr) hle) ?_
        intro lst r2 hok _
        have h2 : r2.length ≤ rest.length :=
          (strListGo_tot n rest hr).2 lst r2 hok
        exact tot_mono (ih none (k lst) r2 (lt_of_le_of_lt h2 hr))
          (le_trans h2 hle)
      have greq : Tot (andThen (reqGo n none [] rest)
          (fun _ r2 => specGo n none acc r2)) ((e :: rest).length) := by
        refine tot_andThen (tot_mono (reqGo_tot n none [] rest hr) hle) ?_
        intro rq r2 hok _
        have h2 : r2.length ≤ rest.length :=
          (reqGo_tot n none [] rest hr).2 rq r2 hok
        exact tot_mono (ih none acc r2 (lt_of_le_of_lt h2 hr)) (le_trans h2 hle)
      cases st with
      | none =>
        have gkey : ∀ (ev : YEvent),
            Tot (match parseStr ev with
                 | .error er => DResult.err er
                 | .ok k =>
                   match specKeyOf k with
                   | some f => specGo n (some f) acc rest
                   | none => DResult.err (.unknownSpecField k))
              ((e :: rest).length) := by
          intro ev
          cases hp : parseStr ev with
          | error er => exact tot_err
          | ok k =>
            dsimp only
            cases hs : specKeyOf k with
            | some f => exact tot_mono (ih (some f) acc rest hr) hle
            | none => exact tot_err
        cases e with
        | mappingEnd =>
          obtain ⟨na, vr, pl, au, bi, ce, de⟩ := acc
          simp only [specGo]
          cases na <;> cases vr <;> cases pl <;>
            first
              | exact tot_ok hle
              | exact tot_panicked
        | streamStart => simp only [specGo]; exact gkey YEvent.streamStart
        | documentStart => simp only [specGo]; exact gkey YEvent.documentStart
        | documentEnd => simp only [specGo]; exact gkey YEvent.documentEnd
        | streamEnd => simp only [specGo]; exact gkey YEvent.streamEnd
        | scalar v s a t => simp only [specGo]; exact gkey (YEvent.scalar v s a t)
        | mappingStart a t => simp only [specGo]; exact gkey (YEvent.mappingStart a t)
        | sequenceStart a t => simp only [specGo]; exact gkey (YEvent.sequenceStart a t)
        | sequenceEnd => simp only [specGo]; exact gkey YEvent.sequenceEnd
      | some f =>
        cases f with
        | name =>
          simp only [specGo]
          exact gstr e _ (fun s => hrec _)
        | platform =>
          simp only [specGo]
          exact gstr e _ (fun s => hrec _)
        | bindir =>
          simp only [specGo]
          exact gstr e _ (fun s => hrec _)
        | date =>
          simp only [specGo]
          exact gstr e _ (fun s => hrec _)
        | description =>
          simp only [specGo]
          exact gstr e _ (fun s => hrec _)
        | email =>
          simp only [specGo]
          exact gstr e _ (fun s => hrec _)
        | homepage =>
          simp only [specGo]
          exact gstr e _ (fun s => hrec _)
        | rubygemsVersion =>
          simp only [specGo]
          exact gstr e _ (fun s => hrec _)
        | summary =>
          simp only [specGo]
          exact gstr e _ (fun s => hrec _)
        | autorequire =>
          simp only [specGo]
          exact gnull e _ (fun u => hrec _)
        | postInstallMessage =>
          simp only [specGo]
          exact gnull e _ (fun u => hrec _)
        | signingKey =>
          simp only [specGo]
          exact gnull e _ (fun u => hrec _)
        | specificationVersion =>
          simp only [specGo]
          exact gint e _ (fun i => hrec _)
        | authors =>
          cases e with
          | sequenceStart a t =>
            cases t with
            | none => simp only [specGo]; exact glist _
            | some tg => simp only [specGo]; exact tot_panicked
          | streamStart => simp only [specGo]; exact tot_panicked
          | documentStart => simp only [specGo]; exact tot_panicked
          | documentEnd => simp only [specGo]; exact tot_panicked
          | streamEnd => simp only [specGo]; exact tot_panicked
          | scalar v s a t => simp only [specGo]; exact tot_panicked
          | mappingStart a t => simp only [specGo]; exact tot_panicked
          | mappingEnd => simp only [specGo]; exact tot_panicked
          | sequenceEnd => simp only [specGo]; exact tot_panicked
        | certChain =>
          cases e with
          | sequenceStart a t =>
            cases t with
            | none => simp only [specGo]; exact glist _
            | some tg => simp only [specGo]; exact tot_panicked
          | streamStart => simp only [specGo]; exact tot_panicked
          | documentStart => simp only [specGo]; exact tot_panicked
          | documentEnd => simp only [specGo]; exact tot_panicked
          | streamEnd => simp only [specGo]; exact tot_panicked
          | scalar v s a t => simp only [specGo]; exact tot_panicked
          | mappingStart a t => simp only [specGo]; exact tot_panicked
          | mappingEnd => simp only [specGo]; exact tot_panicked
          | sequenceEnd => simp only [specGo]; exact tot_panicked
        | executables =>
          cases e with
          | sequenceStart a t =>
            cases t with
            | none => simp only [specGo]; exact glist _
            | some tg => simp only [specGo]; exact tot_panicked
          | streamStart => simp only [specGo]; exact tot_panicked
          | documentStart => simp only [specGo]; exact tot_panicked
          | documentEnd => simp only [specGo]; exact tot_panicked
          | streamEnd => simp only [specGo]; exact tot_panicked
          | scalar v s a t => simp only [specGo]; exact tot_panicked
          | mappingStart a t => simp only [specGo]; exact tot_panicked
          | mappingEnd => simp only [specGo]; exact tot_panicked
          | sequenceEnd => simp only [specGo]; exact tot_panicked
        | extensions =>
          cases e with
          | sequenceStart a t =>
            cases t with
            | none => simp only [specGo]; exact glist _
            | some tg => simp only [specGo]; exact tot_panicked
          | streamStart => simp only [specGo]; exact tot_panicked
          | documentStart => simp only [specGo]; exact tot_panicked
          | documentEnd => simp only [specGo]; exact tot_panicked
          | streamEnd => simp only [specGo]; exact tot_panicked
          | scalar v s a t => simp only [specGo]; exact tot_panicked
          | mappingStart a t => simp only [specGo]; exact tot_panicked
          | mappingEnd => simp only [specGo]; exact tot_panicked
          | sequenceEnd => simp only [specGo]; exact tot_panicked
        | extraRdocFiles =>
          cases e with
          | sequenceStart a t =>
            cases t with
            | none => simp only [specGo]; exact glist _
            | some tg => simp only [specGo]; exact tot_panicked
          | streamStart => simp only [specGo]; exact tot_panicked
          | documentStart => simp only [specGo]; exact tot_panicked
          | documentEnd => simp only [specGo]; exact tot_panicked
          | streamEnd => simp only [specGo]; exact tot_panicked
          | scalar v s a t => simp only [specGo]; exact tot_panicked
          | mappingStart a t => simp only [specGo]; exact tot_panicked
          | mappingEnd => simp only [specGo]; exact tot_panicked
          | sequenceEnd => simp only [specGo]; exact tot_panicked
        | files =>
          cases e with
          | sequenceStart a t =>
            cases t with
            | none => simp only [specGo]; exact glist _
            | some tg => simp only [specGo]; exact tot_panicked
          | streamStart => simp only [specGo]; exact tot_panicked
          | documentStart => simp only [specGo]; exact tot_panicked
          | documentEnd => simp only [specGo]; exact tot_panicked
          | streamEnd => simp only [specGo]; exact tot_panicked
          | scalar v s a t => simp only [specGo]; exact tot_panicked
          | mappingStart a t => simp only [specGo]; exact tot_panicked
          | mappingEnd => simp only [specGo]; exact tot_panicked
          | sequenceEnd => simp only [specGo]; exact tot_panicked
        | licenses =>
          cases e with
          | sequenceStart a t =>
            cases t with
            | none => simp only [specGo]; exact glist _
            | some tg => simp only [specGo]; exact tot_panicked
          | streamStart => simp only [specGo]; exact tot_panicked
          | documentStart => simp only [specGo]; exact tot_panicked
          | documentEnd => simp only [specGo]; exact tot_panicked
          | streamEnd => simp only [specGo]; exact tot_panicked
          | scalar v s a t => simp only [specGo]; exact tot_panicked
          | mappingStart a t => simp only [specGo]; exact tot_panicked
          | mappingEnd => simp only [specGo]; exact tot_panicked
          | sequenceEnd => simp only [specGo]; exact tot_panicked
        | rdocOptions =>
          cases e with
          | sequenceStart a t =>
            cases t with
            | none => simp only [specGo]; exact glist _
            | some tg => simp only [specGo]; exact tot_panicked
          | streamStart => simp only [specGo]; exact tot_panicked
          | documentStart => simp only [specGo]; exact tot_panicked
          | documentEnd => simp only [specGo]; exact tot_panicked
          | streamEnd => simp only [specGo]; exact tot_panicked
          | scalar v s a t => simp only [specGo]; exact tot_panicked
          | mappingStart a t => simp only [specGo]; exact tot_panicked
          | mappingEnd => simp only [specGo]; exact tot_panicked
          | sequenceEnd => simp only [specGo]; exact tot_panicked
        | requirePaths =>
          cases e with
          | sequenceStart a t =>
            cases t with
            | none => simp only [specGo]; exact glist _
            | some tg => simp only [specGo]; exact tot_panicked
          | streamStart => simp only [specGo]; exact tot_panicked
          | documentStart => simp only [specGo]; exact tot_panicked
          | documentEnd => simp only [specGo]; exact tot_panicked
          | streamEnd => simp only [specGo]; exact tot_panicked
          | scalar v s a t => simp only [specGo]; exact tot_panicked
          | mappingStart a t => simp only [specGo]; exact tot_panicked
          | mappingEnd => simp only [specGo]; exact tot_panicked
          | sequenceEnd => simp only [specGo]; exact tot_panicked
        | testFiles =>
          cases e with
          | sequenceStart a t =>
            cases t with
            | none => simp only [specGo]; exact glist _
            | some tg => simp only [specGo]; exact tot_panicked
          | streamStart => simp only [specGo]; exact tot_panicked
          | documentStart => simp only [specGo]; exact tot_panicked
          | documentEnd => simp only [specGo]; exact tot_panicked
          | streamEnd => simp only [specGo]; exact tot_panicked
          | scalar v s a t => simp only [specGo]; exact tot_panicked
          | mappingStart a t => simp only [specGo]; exact tot_panicked
          | mappingEnd => simp only [specGo]; exact tot_panicked
          | sequenceEnd => simp only [specGo]; exact tot_panicked
        | version =>
          cases e with
          | mappingStart a t =>
            cases a with
            | zero =>
              cases t with
              | none => simp only [specGo]; exact tot_panicked
              | some tg =>
                simp only [specGo]
                by_cases htag : rubyObjectTag tg "Gem::Version" = true
                · rw [if_pos htag]
                  refine tot_andThen
                    (tot_mono (verGo_tot n .key none rest hr) hle) ?_
                  intro v r2 hok _
                  have h2 : r2.length ≤ rest.length :=
                    (verGo_tot n .key none rest hr).2 v r2 hok
                  exact tot_mono (ih none _ r2 (lt_of_le_of_lt h2 hr))
                    (le_trans h2 hle)
                · rw [if_neg htag]
                  exact tot_panicked
            | succ a' => simp only [specGo]; exact tot_panicked
          | streamStart => simp only [specGo]; exact tot_panicked
          | documentStart => simp only [specGo]; exact tot_panicked
          | documentEnd => simp only [specGo]; exact tot_panicked
          | streamEnd => simp only [specGo]; exact tot_panicked
          | scalar v s a t => simp only [specGo]; exact tot_panicked
          | mappingEnd => simp only [specGo]; exact tot_panicked
          | sequenceStart a t => simp only [specGo]; exact tot_panicked
          | sequenceEnd => simp only [specGo]; exact tot_panicked
        | requiredRubyVersion =>
          cases e with
          | mappingStart a t =>
            cases a with
            | zero =>
              cases t with
              | none => simp only [specGo]; exact tot_panicked
              | some tg =>
                simp only [specGo]
                by_cases htag : rubyObjectTag tg "Gem::Requirement" = true
                · rw [if_pos htag]
                  exact greq
                · rw [if_neg htag]
                  exact tot_panicked
            | succ a' => simp only [specGo]; exact tot_panicked
          | streamStart => simp only [specGo]; exact tot_panicked
          | documentStart => simp only [specGo]; exact tot_panicked
          | documentEnd => simp only [specGo]; exact tot_panicked
          | streamEnd => simp only [specGo]; exact tot_panicked
          | scalar v s a t => simp only [specGo]; exact tot_panicked
          | mappingEnd => simp only [specGo]; exact tot_panicked
          | sequenceStart a t => simp only [specGo]; exact tot_panicked
          | sequenceEnd => simp only [specGo]; exact tot_panicked
        | requiredRubygemsVersion =>
          cases e with
          | mappingStart a t =>
            cases a with
            | zero =>
              cases t with
              | none => simp only [specGo]; exact tot_panicked
              | some tg =>
                simp only [specGo]
                by_cases htag : rubyObjectTag tg "Gem::Requirement" = true
                · rw [if_pos htag]
                  exact greq
                · rw [if_neg htag]
                  exact tot_panicked
            | succ a' => simp only [specGo]; exact tot_panicked
          | streamStart => simp only [specGo]; exact tot_panicked
          | documentStart => simp only [specGo]; exact tot_panicked
          | documentEnd => simp only [specGo]; exact tot_panicked
          | streamEnd => simp only [specGo]; exact tot_panicked
          | scalar v s a t => simp only [specGo]; exact tot_panicked
          | mappingEnd => simp only [specGo]; exact tot_panicked
          | sequenceStart a t => simp only [specGo]; exact tot_panicked
          | sequenceEnd => simp only [specGo]; exact tot_panicked
        | dependencies =>
          cases e with
          | sequenceStart a t =>
            cases t with
            | none =>
              simp only [specGo]
              refine tot_andThen (tot_mono (depsGo_tot n rest hr) hle) ?_
              intro ds r2 hok _
              have h2 : r2.length ≤ rest.length :=
                (depsGo_tot n rest hr).2 ds r2 hok
              exact tot_mono (ih none acc r2 (lt_of_le_of_lt h2 hr))
                (le_trans h2 hle)
            | some tg => simp only [specGo]; exact tot_panicked
          | streamStart => simp only [specGo]; exact tot_panicked
          | documentStart => simp only [specGo]; exact tot_panicked
          | documentEnd => simp only [specGo]; exact tot_panicked
          | streamEnd => simp only [specGo]; exact tot_panicked
          | scalar v s a t => simp only [specGo]; exact tot_panicked
          | mappingStart a t => simp only [specGo]; exact tot_panicked
          | mappingEnd => simp only [specGo]; exact tot_panicked
          | sequenceEnd => simp only [specGo]; exact tot_panicked
        | metadata =>
          cases e with
          | mappingStart a t =>
            cases a with
            | zero =>
              cases t with
              | none =>
                simp only [specGo]
                refine tot_andThen (tot_mono (mapStrGo_tot n rest hr) hle) ?_
                intro u r2 hok _
                have h2 : r2.length ≤ rest.length :=
                  (mapStrGo_tot n rest hr).2 u r2 hok
                exact tot_mono (ih none acc r2 (lt_of_le_of_lt h2 hr))
                  (le_trans h2 hle)
              | some tg => simp only [specGo]; exact tot_panicked
            | succ a' => simp only [specGo]; exact tot_panicked
          | streamStart => simp only [specGo]; exact tot_panicked
          | documentStart => simp only [specGo]; exact tot_panicked
          | documentEnd => simp only [specGo]; exact tot_panicked
          | streamEnd => simp only [specGo]; exact tot_panicked
          | scalar v s a t => simp only [specGo]; exact tot_panicked
          | mappingEnd => simp only [specGo]; exact tot_panicked
          | sequenceStart a t => simp only [specGo]; exact tot_panicked
          | sequenceEnd => simp only [specGo]; exact tot_panicked
        | requirements =>
          cases e with
          | sequenceStart a t =>
            cases a with
            | zero =>
              cases t with
              | none =>
                simp only [specGo]
                refine tot_andThen (tot_mono (specReqsGo_tot n rest hr) hle) ?_
                intro u r2 hok _
                have h2 : r2.length ≤ rest.length :=
                  (specReqsGo_tot n rest hr).2 u r2 hok
                exact tot_mono (ih none acc r2 (lt_of_le_of_lt h2 hr))
                  (le_trans h2 hle)
              | some tg => simp only [specGo]; exact tot_panicked
            | succ a' => simp only [specGo]; exact tot_panicked
          | streamStart => simp only [specGo]; exact tot_panicked
          | documentStart => simp only [specGo]; exact tot_panicked
          | documentEnd => simp only [specGo]; exact tot_panicked
          | streamEnd => simp only [specGo]; exact tot_panicked
          | scalar v s a t => simp only [specGo]; exact tot_panicked
          | mappingStart a t => simp only [specGo]; exact tot_panicked
          | mappingEnd => simp only [specGo]; exact tot_panicked
          | sequenceEnd => simp only [specGo]; exact tot_panicked

/-- Claim C7, counterexample: the decoder does NOT always return "exactly one
Specification value or exactly one typed error value" — on this fixed,
unexpectedly-shaped event sequence (the "version" key followed by a plain
scalar instead of a tagged mapping) the decode outcome is a PANIC
(the source's `unimplemented!` catch-all), which is neither. -/
theorem c7_counterexample :
    parseGemSpecification [plainScalar "version", quotedScalar "x"] =
      .panicked "unimplemented" := by decide

/-- Claim C7 (amended): decode of a fixed event sequence is total and
deterministic — the embedding is a function, so each event sequence has
exactly one outcome, and the supplied fuel (one more than the number of
events) is never exhausted, i.e. the Rust loops always terminate because
every iteration consumes at least one event.  But the outcome is one of
THREE kinds: a Specification, a typed error, or a panic
(`unwrap`/`expect`/`assert_matches!`/`unimplemented!`) — the claim's
"never panics" clause is refuted by the counterexample. -/
theorem c7_decode_total_deterministic (events : List YEvent) :
    (∃ (s : Specification) (rest : List YEvent),
      parseGemSpecification events = .ok s rest) ∨
    (∃ e : DecodeErr, parseGemSpecification events = .err e) ∨
    (∃ m : String, parseGemSpecification events = .panicked m) := by
  have h := specGo_tot (events.length + 1) none {} events (Nat.lt_succ_self _)
  cases hq : parseGemSpecification events with
  | ok s rest => exact Or.inl ⟨s, rest, rfl⟩
  | err e => exact Or.inr (Or.inl ⟨e, rfl⟩)
  | panicked m => exact Or.inr (Or.inr ⟨m, rfl⟩)
  | fuelOut => exact absurd hq h.1
